import Mathlib

/-!
Verification of the ESP `socmap_gen.py` resolution/allocation engine.

This file gives a shallow embedding of the core of
`src/tools/socgen/socmap_gen.py`: the platform constants, the topology walk
that builds `soc_config` (ID, bus-index, interrupt-line assignment), the
address/mask partitioning of `print_mapping`, the cross-reference tables and
the initialization/reset orderings, together with theorems settling the
frozen claims about that code.

Machine integers are modelled as `Nat`/`Int`; Python's unbounded-int bitwise
operators `&` and `~` are modelled by executable functions `pyand`/`pynot`.
Python list indexing (which raises `IndexError` out of range) is modelled by
`pyGet` returning `Except`.
-/

namespace Socmap

/-! ## Platform constants (socmap_gen.py lines 16-166) -/

def NAPBS : Nat := 512
def NAHBS : Nat := 32
def IRQ_LINES : Nat := 32
def NCPU_MAX : Nat := 16
def NMEM_MAX : Nat := 16
def NSLM_MAX : Nat := 16
def NTILE_MAX : Nat := 256
def NACC_MAX : Nat := NAPBS - NCPU_MAX - NMEM_MAX - NTILE_MAX - 8

/-- `DDR_HADDR` dict: defined on exactly the keys `leon3`, `ariane`, `ibex`. -/
def DDR_HADDR (arch : String) : Nat :=
  if arch = "leon3" then 0x400
  else if arch = "ariane" then 0x800
  else if arch = "ibex" then 0x800
  else 0

/-- SLM base address (12 MSBs). -/
def SLM_HADDR : Nat := 0x040
def SLMDDR_HADDR : Nat := 0xC00

/-- Main memory size (12 MSBs). -/
def DDR_SIZE : Nat := 0x400

/-- Private cache I/O-bus slave indices: `list(range(8, 8 + NCPU_MAX))`. -/
def L2_CACHE_PINDEX : List Nat := (List.range NCPU_MAX).map (fun i => 8 + i)

/-- Last-level cache I/O-bus slave indices: `list(range(24, 24 + NMEM_MAX))`. -/
def LLC_CACHE_PINDEX : List Nat := (List.range NMEM_MAX).map (fun i => 24 + i)

/-- ESP tile CSRs APB indices: `list(range(40, 40 + NTILE_MAX))`. -/
def CSR_PINDEX : List Nat := (List.range NTILE_MAX).map (fun i => 40 + i)

/-- First I/O-bus index for accelerators. -/
def SLD_APB_PINDEX : Nat := 40 + NTILE_MAX

def L2_CACHE_PIRQ : Nat := 3
def LLC_CACHE_PIRQ : Nat := 4

/-! ## Python primitives -/

instance {ε α : Type} [DecidableEq ε] [DecidableEq α] :
    DecidableEq (Except ε α)
  | Except.error e, Except.error f => decidable_of_iff (e = f) (by simp)
  | Except.error _, Except.ok _ => isFalse (by simp)
  | Except.ok _, Except.error _ => isFalse (by simp)
  | Except.ok a, Except.ok b => decidable_of_iff (a = b) (by simp)

/-- Python list indexing: `l[i]` raises `IndexError` when `i` is out of
range (all indices used by the generator are nonnegative). -/
def pyGet (l : List Nat) (i : Nat) : Except String Nat :=
  match l[i]? with
  | some v => Except.ok v
  | none => Except.error "IndexError"

/-- Bitwise AND of two naturals computed with explicit fuel (one bit per
unit of fuel), so that the kernel can evaluate it.  `landAux f a b` equals
`a &&& b` whenever `a < 2 ^ f`. -/
def landAux : Nat → Nat → Nat → Nat
  | 0, _, _ => 0
  | f + 1, a, b =>
    if a = 0 then 0
    else (a % 2) * (b % 2) + 2 * landAux f (a / 2) (b / 2)

/-- Bitwise AND on `Nat` (kernel-computable). -/
def natAnd (a b : Nat) : Nat := landAux (a + 1) a b

/-- Bitwise OR on `Nat`, via `a | b = a + b - (a & b)`. -/
def natOr (a b : Nat) : Nat := a + b - natAnd a b

/-- Python's `~` on unbounded integers. -/
def pynot (a : Int) : Int := -a - 1

/-- Python's `&` on unbounded (two's-complement) integers. -/
def pyand (a b : Int) : Int :=
  if 0 ≤ a then
    if 0 ≤ b then (natAnd a.toNat b.toNat : Nat)
    else (a.toNat - natAnd a.toNat (-b - 1).toNat : Nat)
  else
    if 0 ≤ b then (b.toNat - natAnd b.toNat (-a - 1).toNat : Nat)
    else -(natOr (-a - 1).toNat (-b - 1).toNat : Nat) - 1

/-- The recurring mask expression of the generator:
`0xfff & ~(u - 1)` on Python ints, for a (possibly zero) unit count `u`. -/
def mask12 (u : Nat) : Int := pyand 0xfff (pynot ((u : Int) - 1))

/-! ## Input model

The generator reads the topology through the `soc` object built by the
(out-of-scope) configuration-loading layer: grid dimensions `soc.noc.rows`
/ `soc.noc.cols`, per-cell `ip_type` / `point` / `has_l2` / `has_tdvfs` /
`has_ddr` / `vendor`, the scalar options, and the platform accelerator
role set `soc.IPs.ACCELERATORS`.  We model that input as a plain record;
the grid is a total function on coordinates (only coordinates inside the
grid are ever read). -/

structure topo_cell where
  ip_type : String := "empty"
  point : Int := 0
  has_l2 : Nat := 0
  has_tdvfs : Nat := 0
  has_ddr : Nat := 0
  vendor : String := ""

structure soc_in where
  rows : Nat := 0
  cols : Nat := 0
  topology : Nat → Nat → topo_cell := fun _ _ => {}
  cpu_arch : String := "leon3"
  cache_en : Nat := 0
  slm_kbytes : Nat := 0
  accelerator_types : List String := []
  has_dvfs_flag : Bool := false

/-- The linear tile index `t = y + x * cols` enumerates cells in row-major
order; cell `t` has coordinates `(t / cols, t % cols)`. -/
def cellAt (s : soc_in) (t : Nat) : topo_cell :=
  s.topology (t / s.cols) (t % s.cols)

def ntilesOf (s : soc_in) : Nat := s.rows * s.cols

/-- Modelled from the spec: `soc.noc.get_cpu_num` (configuration layer, not
under `src/`) — the count of grid cells whose declared role is `cpu`. -/
def get_cpu_num (s : soc_in) : Nat :=
  (List.range (ntilesOf s)).countP (fun t => (cellAt s t).ip_type == "cpu")

/-- Modelled from the spec: `soc.noc.get_mem_num` — count of memory-controller
cells. -/
def get_mem_num (s : soc_in) : Nat :=
  (List.range (ntilesOf s)).countP (fun t => (cellAt s t).ip_type == "mem")

/-- Modelled from the spec: `soc.noc.get_slm_num` — count of shared-local
memory cells without off-chip DDR. -/
def get_slm_num (s : soc_in) : Nat :=
  (List.range (ntilesOf s)).countP
    (fun t => (cellAt s t).ip_type == "slm" && (cellAt s t).has_ddr == 0)

/-- Modelled from the spec: `soc.noc.get_slmddr_num` — count of shared-local
memory cells with off-chip DDR. -/
def get_slmddr_num (s : soc_in) : Nat :=
  (List.range (ntilesOf s)).countP
    (fun t => (cellAt s t).ip_type == "slm" && (cellAt s t).has_ddr != 0)

/-- Modelled from the spec: `soc.noc.get_acc_num` — count of cells whose
role is in the platform accelerator role set. -/
def get_acc_num (s : soc_in) : Nat :=
  (List.range (ntilesOf s)).countP
    (fun t => s.accelerator_types.contains (cellAt s t).ip_type)

/-! ## Resolved data model (classes `cache_info`, `acc_info`, `tile_info`) -/

structure cache_info where
  id : Int := -1
  idx : Int := -1
deriving Repr, DecidableEq

structure acc_info where
  uppercase_name : String := ""
  lowercase_name : String := ""
  vendor : String := ""
  id : Int := -1
  idx : Int := -1
  irq : Int := 5
deriving Repr, DecidableEq

structure tile_info where
  type : String := "empty"
  row : Nat := 0
  col : Nat := 0
  cpu_id : Int := -1
  mem_id : Int := -1
  slm_id : Int := -1
  slmddr_id : Int := -1
  l2 : cache_info := {}
  llc : cache_info := {}
  dvfs : cache_info := {}
  acc : acc_info := {}
  has_l2 : Nat := 0
  has_tdvfs : Nat := 0
  has_ddr : Nat := 0
  design_point : Int := 0
deriving Repr, DecidableEq

/-! ## The topology walk (`soc_config.__init__`, lines 306-401) -/

/-- Mutable state of the single row-major walk: the processed tiles (in
order) together with the dynamic counters of `__init__`. -/
structure walk_state where
  tiles : List tile_info := []
  l2s : List cache_info := []
  llcs : List cache_info := []
  accelerators : List acc_info := []
  nl2 : Nat := 0
  nthirdparty : Nat := 0
  cpu_id : Nat := 0
  acc_l2_id : Nat := 0
  llc_id : Nat := 0
  mem_id : Nat := 0
  slm_id : Nat := 0
  slmddr_id : Nat := 0
  acc_id : Nat := 0
  acc_irq : Nat := 3
deriving Repr, DecidableEq

/-- Process one grid cell at coordinates `(x, y)`: the body of the nested
loop of `soc_config.__init__`.  The sequential (non-`elif`) role branches
of the Python code are replicated in order. -/
def step (coherence : Bool) (accset : List String) (arch : String)
    (st : walk_state) (x y : Nat) (cell : topo_cell) :
    Except String walk_state := do
  let sel := cell.ip_type
  let t0 : tile_info :=
    { type := "empty", row := x, col := y, design_point := cell.point,
      has_l2 := cell.has_l2, has_tdvfs := cell.has_tdvfs,
      has_ddr := cell.has_ddr }
  -- if selection == "cpu"
  let (t1, st1) ←
    if sel = "cpu" then
      let t := { t0 with type := "cpu", cpu_id := (st.cpu_id : Int) }
      if coherence then do
        let pidx ← pyGet L2_CACHE_PINDEX st.cpu_id
        let l2 : cache_info := { id := (st.cpu_id : Int), idx := (pidx : Int) }
        pure ({ t with l2 := l2 },
          { st with l2s := st.l2s ++ [l2], nl2 := st.nl2 + 1,
                    cpu_id := st.cpu_id + 1 })
      else
        pure (t, { st with cpu_id := st.cpu_id + 1 })
    else pure (t0, st)
  -- if selection == "slm" and has_ddr == 0
  let (t2, st2) :=
    if sel = "slm" ∧ cell.has_ddr = 0 then
      ({ t1 with type := "slm", slm_id := (st1.slm_id : Int) },
       { st1 with slm_id := st1.slm_id + 1 })
    else (t1, st1)
  -- if selection == "slm" and has_ddr != 0
  let (t3, st3) :=
    if sel = "slm" ∧ cell.has_ddr ≠ 0 then
      ({ t2 with type := "slmddr", slmddr_id := (st2.slmddr_id : Int) },
       { st2 with slmddr_id := st2.slmddr_id + 1 })
    else (t2, st2)
  -- if selection == "mem"
  let (t4, st4) ←
    if sel = "mem" then
      let t := { t3 with type := "mem", mem_id := (st3.mem_id : Int) }
      let st := { st3 with mem_id := st3.mem_id + 1 }
      if coherence then do
        let pidx ← pyGet LLC_CACHE_PINDEX st.llc_id
        let llc : cache_info := { id := (st.llc_id : Int), idx := (pidx : Int) }
        pure ({ t with llc := llc },
          { st with llcs := st.llcs ++ [llc], llc_id := st.llc_id + 1 })
      else pure (t, st)
    else pure (t3, st3)
  -- if selection == "IO"
  let t5 := if sel = "IO" then { t4 with type := "misc" } else t4
  -- if soc.IPs.ACCELERATORS.count(selection)
  let (t6, st6) :=
    if accset.contains sel then
      let acc : acc_info :=
        { uppercase_name := sel, lowercase_name := sel.toLower,
          id := (st4.acc_id : Int), irq := (st4.acc_irq : Int),
          idx := ((SLD_APB_PINDEX + st4.acc_id : Nat) : Int),
          vendor := cell.vendor }
      let nthird :=
        if cell.vendor ≠ "sld" then st4.nthirdparty + 1 else st4.nthirdparty
      let irq1 :=
        if arch = "ariane" ∨ arch = "ibex" then
          if st4.acc_irq + 1 = 11 then 13 else st4.acc_irq + 1
        else st4.acc_irq
      let t := { t5 with type := "acc", acc := acc }
      let stA :=
        { st4 with accelerators := st4.accelerators ++ [acc],
                   nthirdparty := nthird, acc_id := st4.acc_id + 1,
                   acc_irq := irq1 }
      if coherence ∧ cell.has_l2 = 1 then
        let l2 : cache_info := { id := (stA.acc_l2_id : Int) }
        ({ t with l2 := l2 },
         { stA with l2s := stA.l2s ++ [l2], nl2 := stA.nl2 + 1,
                    acc_l2_id := stA.acc_l2_id + 1 })
      else (t, stA)
    else (t5, st4)
  pure { st6 with tiles := st6.tiles ++ [t6] }

/-- Walk the cells with linear indices `t, t+1, ..., t+n-1` (recursion on
the number `n` of remaining cells). -/
def walkFrom (s : soc_in) (coherence : Bool) :
    walk_state → Nat → Nat → Except String walk_state
  | st, _, 0 => Except.ok st
  | st, t, n + 1 => do
    let st1 ← step coherence s.accelerator_types s.cpu_arch st
      (t / s.cols) (t % s.cols) (cellAt s t)
    walkFrom s coherence st1 (t + 1) n

/-! ## The resolved configuration (`soc_config`) -/

structure soc_config where
  cpu_arch : String := "leon3"
  ncpu : Nat := 0
  nmem : Nat := 0
  nslm : Nat := 0
  nslmddr : Nat := 0
  nacc : Nat := 0
  ntiles : Nat := 0
  slm_kbytes : Nat := 0
  slm_tot_kbytes : Nat := 0
  slm_full_mask : Int := 0xfff
  slmddr_kbytes : Nat := 0
  slmddr_tot_kbytes : Nat := 0
  slmddr_full_mask : Int := 0
  coherence : Bool := true
  has_dvfs : Bool := false
  ncdma : Nat := 0
  nllc : Nat := 0
  nl2 : Nat := 0
  ndvfs : Nat := 0
  nthirdparty : Nat := 0
  accelerators : List acc_info := []
  l2s : List cache_info := []
  llcs : List cache_info := []
  dvfs_ctrls : List cache_info := []
  tiles : List tile_info := []
deriving Repr, DecidableEq

/-- Lines 284-287: `coherence = soc.cache_en.get() != 0`. -/
def cohOf (s : soc_in) : Bool := if s.cache_en = 0 then false else true

/-- The counter state at the top of the walk (lines 306-326): the
accelerator cache counter continues after the last CPU identifier; the
accelerator interrupt counter starts at 3, or 5 for `ariane`/`ibex`. -/
def initWalkState (s : soc_in) : walk_state :=
  { acc_l2_id := get_cpu_num s,
    acc_irq := if s.cpu_arch = "ariane" ∨ s.cpu_arch = "ibex" then 5 else 3 }

/-- The scalar fields of `soc_config.__init__` (lines 258-304) combined
with the walk result into the resolved configuration. -/
def assembleConfig (s : soc_in) (fin : walk_state) : soc_config :=
  let ncpu := get_cpu_num s
  let nmem := get_mem_num s
  let nslm := get_slm_num s
  let slm_tot_kbytes := if nslm ≠ 0 then s.slm_kbytes * nslm else 0
  let slm_full_mask : Int :=
    if slm_tot_kbytes > 1024 then mask12 (slm_tot_kbytes / 1024) else 0xfff
  let nslmddr := get_slmddr_num s
  let slmddr_kbytes := 512 * 1024
  let slmddr_tot_kbytes := if nslmddr ≠ 0 then slmddr_kbytes * nslmddr else 0
  let slmddr_full_mask : Int := mask12 (slmddr_tot_kbytes / 1024)
  let nacc := get_acc_num s
  { cpu_arch := s.cpu_arch, ncpu := ncpu, nmem := nmem, nslm := nslm,
    nslmddr := nslmddr, nacc := nacc, ntiles := ntilesOf s,
    slm_kbytes := s.slm_kbytes, slm_tot_kbytes := slm_tot_kbytes,
    slm_full_mask := slm_full_mask, slmddr_kbytes := slmddr_kbytes,
    slmddr_tot_kbytes := slmddr_tot_kbytes,
    slmddr_full_mask := slmddr_full_mask,
    coherence := cohOf s, has_dvfs := s.has_dvfs_flag,
    ncdma := if cohOf s then nacc + 1 else 0,
    nllc := if cohOf s then nmem else 0,
    nl2 := fin.nl2, ndvfs := 0,
    nthirdparty := fin.nthirdparty, accelerators := fin.accelerators,
    l2s := fin.l2s, llcs := fin.llcs, dvfs_ctrls := [],
    tiles := fin.tiles }

/-- `soc_config.__init__`: scalar option resolution (lines 258-304)
followed by the row-major topology walk (lines 306-401).  Note that
`ndvfs` and `dvfs_ctrls` are never written by `__init__`, so they keep
their class defaults `0` and `[]`; likewise no `tile_info.dvfs` field is
ever assigned. -/
def mkSocConfig (s : soc_in) : Except String soc_config :=
  (walkFrom s (cohOf s) (initWalkState s) 0 (ntilesOf s)).map
    (assembleConfig s)

/-! ## Address & mask partitioning (`print_mapping`, lines 870-1095) -/

/-- Lines 877-881: when no memory tile is present, the SLM base address is
replaced by the architecture-specific DDR base (`SLM_HADDR` is rebound to
`DDR_HADDR[cpu_arch]`); the effective base offset of the SLM region. -/
def slm_base_addr (cfg : soc_config) : Nat :=
  if cfg.nmem = 0 then DDR_HADDR cfg.cpu_arch else SLM_HADDR

/-- Lines 882-884: the per-SLM-tile address mask. -/
def slm_tile_mask (cfg : soc_config) : Int :=
  if cfg.slm_kbytes ≥ 1024 then mask12 (cfg.slm_kbytes / 1024) else 0xfff

/-- The base-address accumulation loop (`offset = offset + size` after each
emitted entry): the list of emitted base addresses. -/
def haddr_accum (offset size : Nat) : Nat → List Nat
  | 0 => []
  | n + 1 => offset :: haddr_accum (offset + size) size n

/-- Lines 905-908: the `slm_haddr` entries. -/
def slm_haddr_list (cfg : soc_config) : List Nat :=
  haddr_accum (slm_base_addr cfg) (cfg.slm_kbytes / 1024) cfg.nslm

/-- Lines 1019-1026: per-memory-controller region size (12 MSBs). -/
def ddr_size_of (nmem : Nat) : Nat :=
  if nmem > 0 then
    if nmem > 4 then DDR_SIZE / 8 else DDR_SIZE / nmem
  else DDR_SIZE

/-- Line 1027: `mask = 0xfff & ~(size - 1)`. -/
def ddr_mask_of (nmem : Nat) : Int := mask12 (ddr_size_of nmem)

/-- Line 1028: `full_mask = 0xfff & ~(DDR_SIZE - 1)`. -/
def ddr_full_mask : Int := mask12 DDR_SIZE

/-- Lines 1060-1067: the `ddr_haddr` entries, starting at the
architecture-specific DDR base and stepping by the region size. -/
def ddr_haddr_list (arch : String) (nmem : Nat) : List Nat :=
  haddr_accum (DDR_HADDR arch) (ddr_size_of nmem) nmem

/-- `print_esplink_header`, lines 2267-2274: with no memory tile the DRAM
size is overridden with the total SLM capacity in bytes. -/
def override_dram_size (cfg : soc_config) : Option Nat :=
  if cfg.nmem = 0 then some (cfg.slm_tot_kbytes * 1024) else none

/-! ## Cross-reference tables (`print_mapping`, lines 1513-1711)

Each table is a VHDL aggregate written by a loop over the tile list; a
sequence of `key => value` choices with `others => 0`.  We model the loop
as the list of written `(key, value)` pairs and the resulting table as the
function obtained by applying the writes in order over the all-zero
default (later writes win, as in the emission order). -/

def upd_fold {κ ν : Type} [DecidableEq κ] (writes : List (κ × ν))
    (base : κ → ν) : κ → ν :=
  writes.foldl (fun tbl kv => Function.update tbl kv.1 kv.2) base

/-- Writes of a category-ID → tile-index table: for each tile index `i` (in
order, starting at the given index) whose descriptor satisfies the guard
`p`, write entry `f t => i`. -/
def xrefWrites (p : tile_info → Bool) (f : tile_info → Int) :
    Nat → List tile_info → List (Int × Nat)
  | _, [] => []
  | i, t :: ts => (if p t then [(f t, i)] else []) ++ xrefWrites p f (i + 1) ts

/-- Writes of a tile-index → category-ID table: for each tile index `i`
whose id `f t` is resolved (`≠ -1`), write entry `i => f t`. -/
def idWrites (f : tile_info → Int) :
    Nat → List tile_info → List (Nat × Int)
  | _, [] => []
  | i, t :: ts =>
    (if f t ≠ -1 then [(i, f t)] else []) ++ idWrites f (i + 1) ts

def tileOfIdTable (cfg : soc_config) (p : tile_info → Bool)
    (f : tile_info → Int) : Int → Nat :=
  upd_fold (xrefWrites p f 0 cfg.tiles) (fun _ => 0)

def idOfTileTable (cfg : soc_config) (f : tile_info → Int) : Nat → Int :=
  upd_fold (idWrites f 0 cfg.tiles) (fun _ => 0)

/-- `tile_cpu_id` (lines 1516-1523). -/
def tile_cpu_id (cfg : soc_config) : Nat → Int :=
  idOfTileTable cfg (fun t => t.cpu_id)

/-- `cpu_tile_id` (lines 1526-1536): guard is `type == "cpu"`. -/
def cpu_tile_id (cfg : soc_config) : Int → Nat :=
  tileOfIdTable cfg (fun t => t.type == "cpu") (fun t => t.cpu_id)

/-- `tile_cache_id` (lines 1539-1546). -/
def tile_cache_id (cfg : soc_config) : Nat → Int :=
  idOfTileTable cfg (fun t => t.l2.id)

/-- `cache_tile_id` (lines 1549-1555). -/
def cache_tile_id (cfg : soc_config) : Int → Nat :=
  tileOfIdTable cfg (fun t => t.l2.id != -1) (fun t => t.l2.id)

/-- `tile_llc_id` (lines 1586-1593). -/
def tile_llc_id (cfg : soc_config) : Nat → Int :=
  idOfTileTable cfg (fun t => t.llc.id)

/-- `llc_tile_id` (lines 1596-1605). -/
def llc_tile_id (cfg : soc_config) : Int → Nat :=
  tileOfIdTable cfg (fun t => t.llc.id != -1) (fun t => t.llc.id)

/-- `slm_tile_id` (lines 1618-1628). -/
def slm_tile_id (cfg : soc_config) : Int → Nat :=
  tileOfIdTable cfg (fun t => t.slm_id != -1) (fun t => t.slm_id)

/-- `tile_slm_id` (lines 1631-1638). -/
def tile_slm_id (cfg : soc_config) : Nat → Int :=
  idOfTileTable cfg (fun t => t.slm_id)

/-- `slmddr_tile_id` (lines 1641-1651). -/
def slmddr_tile_id (cfg : soc_config) : Int → Nat :=
  tileOfIdTable cfg (fun t => t.slmddr_id != -1) (fun t => t.slmddr_id)

/-- `tile_slmddr_id` (lines 1654-1661). -/
def tile_slmddr_id (cfg : soc_config) : Nat → Int :=
  idOfTileTable cfg (fun t => t.slmddr_id)

/-- `mem_tile_id` (lines 1664-1673). -/
def mem_tile_id (cfg : soc_config) : Int → Nat :=
  tileOfIdTable cfg (fun t => t.mem_id != -1) (fun t => t.mem_id)

/-- `tile_mem_id` (lines 1676-1683). -/
def tile_mem_id (cfg : soc_config) : Nat → Int :=
  idOfTileTable cfg (fun t => t.mem_id)

/-- `acc_tile_id` (lines 1704-1711). -/
def acc_tile_id (cfg : soc_config) : Int → Nat :=
  tileOfIdTable cfg (fun t => t.acc.id != -1) (fun t => t.acc.id)

/-- `tile_acc_id` (lines 1694-1701). -/
def tile_acc_id (cfg : soc_config) : Nat → Int :=
  idOfTileTable cfg (fun t => t.acc.id)

/-- Lines 1476-1479: the `cpu_dvfs_pconfig` choices of `fixed_apbo_pconfig`;
one `(bus index, controller number)` pair per DVFS controller. -/
def dvfs_apbo_entries (cfg : soc_config) : List (Int × Nat) :=
  (List.range cfg.ndvfs).map (fun i => ((cfg.dvfs_ctrls.getD i {}).idx, i))

/-- Flag table `tile_has_tdvfs` (lines 1577-1583). -/
def tile_has_tdvfs_tbl (cfg : soc_config) : List Nat :=
  cfg.tiles.map (fun t => t.has_tdvfs)

/-! ## Initialization ordering (`print_mapping`, lines 1714-1942) -/

/-- Lines 1714-1719: the miscellaneous/IO tile index (last one wins,
default 0). -/
def misc_id_of (cfg : soc_config) : Nat :=
  (List.range cfg.ntiles).foldl
    (fun acc i => if (cfg.tiles.getD i {}).type == "misc" then i else acc) 0

/-- Python `range(a, -1, -1)`. -/
def pyRangeRev (a : Nat) : List Nat := (List.range (a + 1)).reverse

/-- Python `range(a, b)`. -/
def pyRangeAsc (a b : Nat) : List Nat := List.range' a (b - a)

/-- `esp_init_sequence` (lines 1925-1942): first every tile, rows scanned
from the I/O tile's row down to 0 then up to the last row, columns within
each row from the I/O tile's column down to 0 then up; then every CPU tile
in descending tile-index order. -/
def esp_init_sequence (s : soc_in) (cfg : soc_config) : List Nat :=
  let m := misc_id_of cfg
  let mt := cfg.tiles.getD m {}
  let rowOrder := pyRangeRev mt.row ++ pyRangeAsc (mt.row + 1) s.rows
  let colOrder := pyRangeRev mt.col ++ pyRangeAsc (mt.col + 1) s.cols
  rowOrder.flatMap (fun i => colOrder.map (fun j => i * s.cols + j)) ++
    (List.range cfg.ntiles).reverse.filter
      (fun i => (cfg.tiles.getD i {}).type == "cpu")

/-! ## Spec-side definitions (for refinement comparison only)

These two definitions follow the words of the specification, not the
source, and exist to be compared against the source-derived definitions. -/

/-- Follows the spec's words: a 12-bit mask of the form "high bits fixed,
low bits free" — `0xfff` with a contiguous low block of bits cleared. -/
def contiguousMask12 (m : Int) : Prop :=
  ∃ k ∈ Finset.range 13, m = 0xfff - (2 ^ k - 1)

instance : DecidablePred contiguousMask12 := fun m =>
  decidable_of_iff (∃ k ∈ Finset.range 13, m = 0xfff - (2 ^ k - 1)) Iff.rfl

/-- Follows the spec's words ("expanding offsets alternating outward from
the center"): `center, center-1, center+1, center-2, center+2, ...`,
restricted to `[0, n)`. -/
def altOutward (center n : Nat) : List Nat :=
  center :: (List.range n).flatMap (fun k =>
    (if k + 1 ≤ center then [center - (k + 1)] else []) ++
    (if center + (k + 1) < n then [center + (k + 1)] else []))

/-- Follows the spec's words for the initialization sequence: concentric
adjacency order with row and column offsets alternating outward from the
I/O tile, then CPU tiles in descending tile-index order. -/
def specInitSequence (s : soc_in) (cfg : soc_config) : List Nat :=
  let m := misc_id_of cfg
  let mt := cfg.tiles.getD m {}
  (altOutward mt.row s.rows).flatMap
      (fun i => (altOutward mt.col s.cols).map (fun j => i * s.cols + j)) ++
    (List.range cfg.ntiles).reverse.filter
      (fun i => (cfg.tiles.getD i {}).type == "cpu")

/-! ## Basic lemmas -/

theorem haddr_accum_getElem (size : Nat) :
    ∀ (n offset i : Nat), i < n →
      (haddr_accum offset size n)[i]? = some (offset + i * size) := by
  intro n
  induction n with
  | zero => intro offset i h; omega
  | succ m ih =>
    intro offset i h
    cases i with
    | zero => simp [haddr_accum]
    | succ j =>
      have hj : j < m := by omega
      have := ih (offset + size) j hj
      simp only [haddr_accum, List.getElem?_cons_succ, this]
      congr 1
      ring

/-- Every entry of `haddr_accum` is `offset + i * size` for some `i`. -/
theorem haddr_accum_mem {b : Nat} (size : Nat) :
    ∀ (n offset : Nat), b ∈ haddr_accum offset size n →
      ∃ i, i < n ∧ b = offset + i * size := by
  intro n
  induction n with
  | zero => intro offset h; simp [haddr_accum] at h
  | succ m ih =>
    intro offset h
    simp only [haddr_accum, List.mem_cons] at h
    rcases h with h | h
    · exact ⟨0, by omega, by omega⟩
    · obtain ⟨i, hi, hb⟩ := ih (offset + size) h
      exact ⟨i + 1, by omega, by rw [hb]; ring⟩

/-! ## Role classification and walk invariants -/

/-- The final `type` field the walk gives a cell: the sequential role
branches of `__init__` with the accelerator branch last (so it wins when a
role string is also in the accelerator set). -/
def roleOf (A : List String) (c : topo_cell) : String :=
  if c.ip_type ∈ A then "acc"
  else if c.ip_type = "cpu" then "cpu"
  else if c.ip_type = "slm" ∧ c.has_ddr = 0 then "slm"
  else if c.ip_type = "slm" ∧ c.has_ddr ≠ 0 then "slmddr"
  else if c.ip_type = "mem" then "mem"
  else if c.ip_type = "IO" then "misc"
  else "empty"

/-- Closed form of the accelerator interrupt-line counter after `n`
accelerators have been seen: base 3 (SPARC) or 5 (`ariane`/`ibex`); the
RISC-V architectures advance by one per accelerator and jump from 11 to 13
(the lines reserved to Ethernet). -/
def accIrqOf (arch : String) (n : Nat) : Nat :=
  if arch = "ariane" ∨ arch = "ibex" then
    if n + 5 ≤ 10 then n + 5 else n + 7
  else 3

/-- A well-formed platform: the accelerator role set does not contain the
reserved role names (otherwise a single cell would be given two roles). -/
def WFacc (s : soc_in) : Prop :=
  "cpu" ∉ s.accelerator_types ∧ "slm" ∉ s.accelerator_types ∧
    "mem" ∉ s.accelerator_types ∧ "IO" ∉ s.accelerator_types

def natRange (n : Nat) : List Int := (List.range n).map (fun k : Nat => (k : Int))

def natRangeFrom (a n : Nat) : List Int := (List.range' a n).map (fun k : Nat => (k : Int))

theorem natRange_succ (n : Nat) :
    natRange (n + 1) = natRange n ++ [(n : Int)] := by
  simp [natRange, List.range_succ]

theorem natRangeFrom_succ (a n : Nat) :
    natRangeFrom a (n + 1) = natRangeFrom a n ++ [((a + n : Nat) : Int)] := by
  simp [natRangeFrom, List.range'_concat]

theorem mem_natRange {x : Int} {n : Nat} (h : x ∈ natRange n) :
    0 ≤ x ∧ x < (n : Int) := by
  simp only [natRange, List.mem_map, List.mem_range] at h
  obtain ⟨k, hk, rfl⟩ := h
  omega

theorem mem_natRangeFrom {x : Int} {a n : Nat} (h : x ∈ natRangeFrom a n) :
    (a : Int) ≤ x ∧ x < ((a + n : Nat) : Int) := by
  simp only [natRangeFrom, List.mem_map, List.mem_range'_1] at h
  obtain ⟨k, hk, rfl⟩ := h
  omega

theorem natRange_nodup (n : Nat) : (natRange n).Nodup := by
  unfold natRange
  exact List.Nodup.map (fun a b h => by simpa using h) (List.nodup_range n)

theorem natRangeFrom_nodup (a n : Nat) : (natRangeFrom a n).Nodup := by
  unfold natRangeFrom
  exact List.Nodup.map (fun a b h => by simpa using h) (List.nodup_range' a n)

/-- Extending an indexed pointwise property along a snoc. -/
theorem indexed_append {α : Type} {l : List α} {a : α} {P : Nat → α → Prop}
    (h : ∀ i t, l[i]? = some t → P i t) (ha : P l.length a) :
    ∀ i t, (l ++ [a])[i]? = some t → P i t := by
  intro i t hit
  rw [List.getElem?_append] at hit
  rcases Nat.lt_trichotomy i l.length with hlt | heq | hgt
  · rw [if_pos hlt] at hit
    exact h i t hit
  · subst heq
    rw [if_neg (by omega)] at hit
    simp only [Nat.sub_self, List.getElem?_cons_zero] at hit
    cases hit
    exact ha
  · rw [if_neg (by omega)] at hit
    have hge : i - l.length ≥ 1 := by omega
    rw [List.getElem?_eq_none_iff.mpr (by simpa using hge)] at hit
    cases hit

theorem filtmap_append {p : tile_info → Bool} {f : tile_info → Int}
    {l : List tile_info} {a : tile_info} :
    ((l ++ [a]).filter p).map f
      = (l.filter p).map f ++ (if p a then [f a] else []) := by
  by_cases h : p a <;> simp [List.filter_append, h]

/-- Count of `type = r` tiles in terms of the cell roles, for tile lists
whose `type` fields follow `roleOf` pointwise. -/
theorem countP_type_eq (g : Nat → String) (r : String) :
    ∀ (l : List tile_info) (off : Nat),
      (∀ i t, l[i]? = some t → t.type = g (off + i)) →
      l.countP (fun t => t.type == r)
        = (List.range' off l.length).countP (fun u => g u == r) := by
  intro l
  induction l with
  | nil => intro off _; simp
  | cons t ts ih =>
    intro off h
    have h0 : t.type = g off := by
      have := h 0 t (by simp)
      simpa using this
    have hts : ∀ i u, ts[i]? = some u → u.type = g (off + 1 + i) := by
      intro i u hu
      have := h (i + 1) u (by simpa using hu)
      simpa [Nat.add_comm, Nat.add_left_comm] using this
    rw [List.countP_cons, List.length_cons, List.range'_succ,
      List.countP_cons, ih (off + 1) hts, h0]

theorem countP_range'_prefix_le (g : Nat → Bool) (t n : Nat) (h : t ≤ n) :
    (List.range' 0 t).countP g ≤ (List.range' 0 n).countP g := by
  have h2 : List.range' 0 t ++ List.range' t (n - t) = List.range' 0 (n - t + t) := by
    have := List.range'_append 0 t (n - t) 1
    simpa using this
  have hn : n - t + t = n := by omega
  rw [hn] at h2
  rw [← h2, List.countP_append]
  omega

/-! ## Step equations: the effect of one loop iteration per role -/

theorem pyGet_L2 {i : Nat} (h : i < NCPU_MAX) :
    pyGet L2_CACHE_PINDEX i = Except.ok (8 + i) := by
  simp [pyGet, L2_CACHE_PINDEX, List.getElem?_map, List.getElem?_range, h]

theorem pyGet_LLC {i : Nat} (h : i < NMEM_MAX) :
    pyGet LLC_CACHE_PINDEX i = Except.ok (24 + i) := by
  simp [pyGet, LLC_CACHE_PINDEX, List.getElem?_map, List.getElem?_range, h]

theorem step_cpu_coh (A : List String) (arch : String) (st : walk_state)
    (x y : Nat) (c : topo_cell) (hc : c.ip_type = "cpu")
    (hA : c.ip_type ∉ A) (hlt : st.cpu_id < NCPU_MAX) :
    step true A arch st x y c = Except.ok
      { st with
        tiles := st.tiles ++
          [{ type := "cpu", row := x, col := y, design_point := c.point,
             has_l2 := c.has_l2, has_tdvfs := c.has_tdvfs,
             has_ddr := c.has_ddr, cpu_id := (st.cpu_id : Int),
             l2 := { id := (st.cpu_id : Int),
                     idx := ((8 + st.cpu_id : Nat) : Int) } }],
        l2s := st.l2s ++
          [{ id := (st.cpu_id : Int), idx := ((8 + st.cpu_id : Nat) : Int) }],
        nl2 := st.nl2 + 1, cpu_id := st.cpu_id + 1 } := by
  have hA2 : ("cpu" : String) ∉ A := by rwa [hc] at hA
  simp [step, hc, hA2, pyGet_L2 hlt, Bind.bind, Except.bind, pure, Except.pure]

theorem step_cpu_nocoh (A : List String) (arch : String) (st : walk_state)
    (x y : Nat) (c : topo_cell) (hc : c.ip_type = "cpu")
    (hA : c.ip_type ∉ A) :
    step false A arch st x y c = Except.ok
      { st with
        tiles := st.tiles ++
          [{ type := "cpu", row := x, col := y, design_point := c.point,
             has_l2 := c.has_l2, has_tdvfs := c.has_tdvfs,
             has_ddr := c.has_ddr, cpu_id := (st.cpu_id : Int) }],
        cpu_id := st.cpu_id + 1 } := by
  have hA2 : ("cpu" : String) ∉ A := by rwa [hc] at hA
  simp [step, hc, hA2, Bind.bind, Except.bind, pure, Except.pure]

theorem step_slm (coh : Bool) (A : List String) (arch : String)
    (st : walk_state) (x y : Nat) (c : topo_cell) (hc : c.ip_type = "slm")
    (hd : c.has_ddr = 0) (hA : c.ip_type ∉ A) :
    step coh A arch st x y c = Except.ok
      { st with
        tiles := st.tiles ++
          [{ type := "slm", row := x, col := y, design_point := c.point,
             has_l2 := c.has_l2, has_tdvfs := c.has_tdvfs,
             has_ddr := c.has_ddr, slm_id := (st.slm_id : Int) }],
        slm_id := st.slm_id + 1 } := by
  have hA2 : ("slm" : String) ∉ A := by rwa [hc] at hA
  simp [step, hc, hd, hA2, Bind.bind, Except.bind, pure, Except.pure]

theorem step_slmddr (coh : Bool) (A : List String) (arch : String)
    (st : walk_state) (x y : Nat) (c : topo_cell) (hc : c.ip_type = "slm")
    (hd : c.has_ddr ≠ 0) (hA : c.ip_type ∉ A) :
    step coh A arch st x y c = Except.ok
      { st with
        tiles := st.tiles ++
          [{ type := "slmddr", row := x, col := y, design_point := c.point,
             has_l2 := c.has_l2, has_tdvfs := c.has_tdvfs,
             has_ddr := c.has_ddr, slmddr_id := (st.slmddr_id : Int) }],
        slmddr_id := st.slmddr_id + 1 } := by
  have hA2 : ("slm" : String) ∉ A := by rwa [hc] at hA
  simp [step, hc, hd, hA2, Bind.bind, Except.bind, pure, Except.pure]

theorem step_mem_coh (A : List String) (arch : String) (st : walk_state)
    (x y : Nat) (c : topo_cell) (hc : c.ip_type = "mem")
    (hA : c.ip_type ∉ A) (hlt : st.llc_id < NMEM_MAX) :
    step true A arch st x y c = Except.ok
      { st with
        tiles := st.tiles ++
          [{ type := "mem", row := x, col := y, design_point := c.point,
             has_l2 := c.has_l2, has_tdvfs := c.has_tdvfs,
             has_ddr := c.has_ddr, mem_id := (st.mem_id : Int),
             llc := { id := (st.llc_id : Int),
                      idx := ((24 + st.llc_id : Nat) : Int) } }],
        llcs := st.llcs ++
          [{ id := (st.llc_id : Int), idx := ((24 + st.llc_id : Nat) : Int) }],
        mem_id := st.mem_id + 1, llc_id := st.llc_id + 1 } := by
  have hA2 : ("mem" : String) ∉ A := by rwa [hc] at hA
  simp [step, hc, hA2, pyGet_LLC hlt, Bind.bind, Except.bind, pure,
    Except.pure]

theorem step_mem_nocoh (A : List String) (arch : String) (st : walk_state)
    (x y : Nat) (c : topo_cell) (hc : c.ip_type = "mem")
    (hA : c.ip_type ∉ A) :
    step false A arch st x y c = Except.ok
      { st with
        tiles := st.tiles ++
          [{ type := "mem", row := x, col := y, design_point := c.point,
             has_l2 := c.has_l2, has_tdvfs := c.has_tdvfs,
             has_ddr := c.has_ddr, mem_id := (st.mem_id : Int) }],
        mem_id := st.mem_id + 1 } := by
  have hA2 : ("mem" : String) ∉ A := by rwa [hc] at hA
  simp [step, hc, hA2, Bind.bind, Except.bind, pure, Except.pure]

theorem step_misc (coh : Bool) (A : List String) (arch : String)
    (st : walk_state) (x y : Nat) (c : topo_cell) (hc : c.ip_type = "IO")
    (hA : c.ip_type ∉ A) :
    step coh A arch st x y c = Except.ok
      { st with
        tiles := st.tiles ++
          [{ type := "misc", row := x, col := y, design_point := c.point,
             has_l2 := c.has_l2, has_tdvfs := c.has_tdvfs,
             has_ddr := c.has_ddr }] } := by
  have hA2 : ("IO" : String) ∉ A := by rwa [hc] at hA
  simp [step, hc, hA2, Bind.bind, Except.bind, pure, Except.pure]

theorem step_empty (coh : Bool) (A : List String) (arch : String)
    (st : walk_state) (x y : Nat) (c : topo_cell)
    (h1 : c.ip_type ≠ "cpu") (h2 : c.ip_type ≠ "slm")
    (h3 : c.ip_type ≠ "mem") (h4 : c.ip_type ≠ "IO")
    (hA : c.ip_type ∉ A) :
    step coh A arch st x y c = Except.ok
      { st with
        tiles := st.tiles ++
          [{ type := "empty", row := x, col := y, design_point := c.point,
             has_l2 := c.has_l2, has_tdvfs := c.has_tdvfs,
             has_ddr := c.has_ddr }] } := by
  simp [step, h1, h2, h3, h4, hA, Bind.bind, Except.bind, pure, Except.pure]

/-- The accelerator descriptor produced by the walk (lines 377-387). -/
def accInfoOf (st : walk_state) (c : topo_cell) : acc_info :=
  { uppercase_name := c.ip_type, lowercase_name := c.ip_type.toLower,
    vendor := c.vendor, id := (st.acc_id : Int),
    idx := ((SLD_APB_PINDEX + st.acc_id : Nat) : Int),
    irq := (st.acc_irq : Int) }

/-- The accelerator interrupt counter update (lines 389-393). -/
def nextAccIrq (arch : String) (irq : Nat) : Nat :=
  if arch = "ariane" ∨ arch = "ibex" then
    if irq + 1 = 11 then 13 else irq + 1
  else irq

theorem step_acc_l2 (A : List String) (arch : String) (st : walk_state)
    (x y : Nat) (c : topo_cell)
    (h1 : c.ip_type ≠ "cpu") (h2 : c.ip_type ≠ "slm")
    (h3 : c.ip_type ≠ "mem") (h4 : c.ip_type ≠ "IO")
    (hA : c.ip_type ∈ A) (hl2 : c.has_l2 = 1) :
    step true A arch st x y c = Except.ok
      { st with
        tiles := st.tiles ++
          [{ type := "acc", row := x, col := y, design_point := c.point,
             has_l2 := c.has_l2, has_tdvfs := c.has_tdvfs,
             has_ddr := c.has_ddr,
             l2 := { id := (st.acc_l2_id : Int), idx := -1 },
             acc := accInfoOf st c }],
        accelerators := st.accelerators ++ [accInfoOf st c],
        l2s := st.l2s ++ [{ id := (st.acc_l2_id : Int), idx := -1 }],
        nl2 := st.nl2 + 1,
        nthirdparty :=
          if c.vendor ≠ "sld" then st.nthirdparty + 1 else st.nthirdparty,
        acc_id := st.acc_id + 1, acc_l2_id := st.acc_l2_id + 1,
        acc_irq := nextAccIrq arch st.acc_irq } := by
  simp [step, h1, h2, h3, h4, hA, hl2, accInfoOf, nextAccIrq, Bind.bind,
    Except.bind, pure, Except.pure]

theorem step_acc_plain (coh : Bool) (A : List String) (arch : String)
    (st : walk_state) (x y : Nat) (c : topo_cell)
    (h1 : c.ip_type ≠ "cpu") (h2 : c.ip_type ≠ "slm")
    (h3 : c.ip_type ≠ "mem") (h4 : c.ip_type ≠ "IO")
    (hA : c.ip_type ∈ A) (hno : ¬(coh = true ∧ c.has_l2 = 1)) :
    step coh A arch st x y c = Except.ok
      { st with
        tiles := st.tiles ++
          [{ type := "acc", row := x, col := y, design_point := c.point,
             has_l2 := c.has_l2, has_tdvfs := c.has_tdvfs,
             has_ddr := c.has_ddr, acc := accInfoOf st c }],
        accelerators := st.accelerators ++ [accInfoOf st c],
        nthirdparty :=
          if c.vendor ≠ "sld" then st.nthirdparty + 1 else st.nthirdparty,
        acc_id := st.acc_id + 1,
        acc_irq := nextAccIrq arch st.acc_irq } := by
  cases coh with
  | false =>
    simp [step, h1, h2, h3, h4, hA, accInfoOf, nextAccIrq, Bind.bind,
      Except.bind, pure, Except.pure]
  | true =>
    have hl2 : c.has_l2 ≠ 1 := by
      intro h
      exact hno ⟨rfl, h⟩
    simp [step, h1, h2, h3, h4, hA, hl2, accInfoOf, nextAccIrq, Bind.bind,
      Except.bind, pure, Except.pure]

/-! ## The walk invariant -/

theorem forall_mem_snoc {α : Type} {l : List α} {a : α} {P : α → Prop}
    (h : ∀ x ∈ l, P x) (ha : P a) : ∀ x ∈ l ++ [a], P x := by
  intro x hx
  rcases List.mem_append.mp hx with h1 | h1
  · exact h x h1
  · cases List.mem_singleton.mp h1
    exact ha

/-- Category sub-invariant: a category's identifiers are defined exactly on
the tiles of its role and, read in tile scan order, form `0, 1, ..., cnt-1`
where `cnt` is the category counter. -/
def CatInv (r : String) (f : tile_info → Int) (cnt : Nat)
    (tiles : List tile_info) : Prop :=
  (∀ t ∈ tiles, (f t ≠ -1 ↔ t.type = r)) ∧
    (tiles.filter (fun t => t.type == r)).map f = natRange cnt

theorem CatInv_hit {r : String} {f : tile_info → Int} {cnt : Nat}
    {tiles : List tile_info} (h : CatInv r f cnt tiles) {newt : tile_info}
    (ht : newt.type = r) (hf : f newt = (cnt : Int)) :
    CatInv r f (cnt + 1) (tiles ++ [newt]) := by
  refine ⟨forall_mem_snoc h.1 ?_, ?_⟩
  · rw [hf, ht]
    simp only [iff_true]
    omega
  · rw [filtmap_append, h.2, if_pos (by simp [ht]), hf, natRange_succ]

theorem CatInv_miss {r : String} {f : tile_info → Int} {cnt : Nat}
    {tiles : List tile_info} (h : CatInv r f cnt tiles) {newt : tile_info}
    (ht : newt.type ≠ r) (hf : f newt = -1) :
    CatInv r f cnt (tiles ++ [newt]) := by
  refine ⟨forall_mem_snoc h.1 ?_, ?_⟩
  · rw [hf]
    simp [ht]
  · rw [filtmap_append, h.2, if_neg (by simp [ht])]
    simp

theorem nextAccIrq_eq (arch : String) (n : Nat) :
    nextAccIrq arch (accIrqOf arch n) = accIrqOf arch (n + 1) := by
  unfold nextAccIrq accIrqOf
  by_cases h : arch = "ariane" ∨ arch = "ibex"
  · simp only [h, if_true]
    split_ifs <;> omega
  · simp [h]

theorem roleOf_acc {A : List String} {c : topo_cell} :
    roleOf A c = "acc" ↔ c.ip_type ∈ A := by
  unfold roleOf
  by_cases hm : c.ip_type ∈ A
  · simp [hm]
  · simp only [hm, if_false, iff_false]
    split_ifs <;> simp [hm]

theorem roleOf_of_mem {A : List String} {c : topo_cell}
    (hm : c.ip_type ∈ A) : roleOf A c = "acc" := by
  simp [roleOf, hm]

theorem roleOf_cpu {A : List String} {c : topo_cell} (hwf : "cpu" ∉ A) :
    roleOf A c = "cpu" ↔ c.ip_type = "cpu" := by
  unfold roleOf
  by_cases hm : c.ip_type ∈ A
  · simp only [hm, if_true]
    constructor
    · intro h; exact absurd h (by decide)
    · intro h; rw [h] at hm; exact absurd hm hwf
  · simp only [hm, if_false]
    split_ifs with h1 h2 h3 h4 h5 <;>
      simp_all

theorem roleOf_mem {A : List String} {c : topo_cell} (hwf : "mem" ∉ A) :
    roleOf A c = "mem" ↔ c.ip_type = "mem" := by
  unfold roleOf
  by_cases hm : c.ip_type ∈ A
  · simp only [hm, if_true]
    constructor
    · intro h; exact absurd h (by decide)
    · intro h; rw [h] at hm; exact absurd hm hwf
  · simp only [hm, if_false]
    split_ifs with h1 h2 h3 h4 h5 <;>
      simp_all

/-- The walk invariant: all the facts about the partially built state that
the cross-reference tables and orderings rely on.  `st.tiles` is the list
of tiles already processed, in tile-index order. -/
structure WalkInv (s : soc_in) (coh : Bool) (st : walk_state) : Prop where
  hrole : ∀ i t, st.tiles[i]? = some t →
    t.type = roleOf s.accelerator_types (cellAt s i)
  hpos : ∀ i t, st.tiles[i]? = some t →
    t.row = i / s.cols ∧ t.col = i % s.cols ∧
      t.has_tdvfs = (cellAt s i).has_tdvfs
  hdvfs : ∀ t ∈ st.tiles, t.dvfs = ({} : cache_info)
  ccpu : CatInv "cpu" (fun t => t.cpu_id) st.cpu_id st.tiles
  cmem : CatInv "mem" (fun t => t.mem_id) st.mem_id st.tiles
  cslm : CatInv "slm" (fun t => t.slm_id) st.slm_id st.tiles
  cslmddr : CatInv "slmddr" (fun t => t.slmddr_id) st.slmddr_id st.tiles
  cacc : CatInv "acc" (fun t => t.acc.id) st.acc_id st.tiles
  cllc : coh = true →
    CatInv "mem" (fun t => t.llc.id) st.llc_id st.tiles
  hllcn : coh = false → ∀ t ∈ st.tiles, t.llc = ({} : cache_info)
  hl2n : coh = false → ∀ t ∈ st.tiles, t.l2 = ({} : cache_info)
  hl2 : ∀ t ∈ st.tiles,
    (t.l2.id ≠ -1 ↔
      coh = true ∧ (t.type = "cpu" ∨ (t.type = "acc" ∧ t.has_l2 = 1)))
  hcpul2 : ∀ t ∈ st.tiles, t.type = "cpu" → coh = true →
    t.l2.id = t.cpu_id ∧ t.l2.idx = t.cpu_id + 8
  hmemllc : ∀ t ∈ st.tiles, t.type = "mem" → coh = true →
    t.llc.id = t.mem_id ∧ t.llc.idx = t.mem_id + 24
  haccl2 : ∀ t ∈ st.tiles, t.type = "acc" → coh = true → t.has_l2 = 1 →
    t.l2.idx = -1
  hirq : ∀ t ∈ st.tiles, t.type = "acc" →
    ∃ k : Nat, t.acc.id = (k : Int) ∧
      t.acc.irq = (accIrqOf s.cpu_arch k : Int) ∧
      t.acc.idx = ((SLD_APB_PINDEX + k : Nat) : Int)
  hllcmem : coh = true → st.llc_id = st.mem_id
  sl2acc : coh = true →
    (st.tiles.filter (fun t => t.type == "acc" && t.has_l2 == 1)).map
        (fun t => t.l2.id)
      = natRangeFrom (get_cpu_num s) (st.acc_l2_id - get_cpu_num s)
  hal2 : get_cpu_num s ≤ st.acc_l2_id
  hal2n : coh = false → st.acc_l2_id = get_cpu_num s
  hirqc : st.acc_irq = accIrqOf s.cpu_arch st.acc_id
  hnl2 : coh = true → st.nl2 = st.cpu_id + (st.acc_l2_id - get_cpu_num s)
  hnl2n : coh = false → st.nl2 = 0

theorem WalkInv_cpu_coh (s : soc_in) (st : walk_state) (t : Nat)
    (hInv : WalkInv s true st) (hlen : st.tiles.length = t)
    (hc : (cellAt s t).ip_type = "cpu")
    (hA : (cellAt s t).ip_type ∉ s.accelerator_types) :
    WalkInv s true
      { st with
        tiles := st.tiles ++
          [{ type := "cpu", row := t / s.cols, col := t % s.cols,
             design_point := (cellAt s t).point,
             has_l2 := (cellAt s t).has_l2,
             has_tdvfs := (cellAt s t).has_tdvfs,
             has_ddr := (cellAt s t).has_ddr, cpu_id := (st.cpu_id : Int),
             l2 := { id := (st.cpu_id : Int),
                     idx := ((8 + st.cpu_id : Nat) : Int) } }],
        l2s := st.l2s ++
          [{ id := (st.cpu_id : Int), idx := ((8 + st.cpu_id : Nat) : Int) }],
        nl2 := st.nl2 + 1, cpu_id := st.cpu_id + 1 } := by
  have hA2 : "cpu" ∉ s.accelerator_types := by rwa [hc] at hA
  have hrl : roleOf s.accelerator_types (cellAt s t) = "cpu" := by
    simp [roleOf, hc, hA2]
  refine
    { hrole := ?_, hpos := ?_, hdvfs := ?_, ccpu := ?_, cmem := ?_,
      cslm := ?_, cslmddr := ?_, cacc := ?_, cllc := ?_, hllcn := ?_,
      hl2n := ?_, hl2 := ?_, hcpul2 := ?_, hmemllc := ?_, haccl2 := ?_,
      hirq := ?_, hllcmem := ?_, sl2acc := ?_, hal2 := ?_, hal2n := ?_,
      hirqc := ?_, hnl2 := ?_, hnl2n := ?_ }
  · exact indexed_append hInv.hrole (by rw [hlen, hrl])
  · exact indexed_append hInv.hpos (by rw [hlen]; exact ⟨rfl, rfl, rfl⟩)
  · exact forall_mem_snoc hInv.hdvfs rfl
  · exact CatInv_hit hInv.ccpu rfl rfl
  · exact CatInv_miss hInv.cmem (by simp) rfl
  · exact CatInv_miss hInv.cslm (by simp) rfl
  · exact CatInv_miss hInv.cslmddr (by simp) rfl
  · exact CatInv_miss hInv.cacc (by simp) rfl
  · exact fun _ => CatInv_miss (hInv.cllc rfl) (by simp) rfl
  · exact fun h => absurd h (by decide)
  · exact fun h => absurd h (by decide)
  · refine forall_mem_snoc hInv.hl2 ?_
    refine ⟨fun _ => ⟨rfl, Or.inl rfl⟩, fun _ => ?_⟩
    simp only []
    omega
  · refine forall_mem_snoc hInv.hcpul2 ?_
    intro _ _
    refine ⟨rfl, ?_⟩
    simp only []
    push_cast
    ring
  · exact forall_mem_snoc hInv.hmemllc (by intro h; simp at h)
  · exact forall_mem_snoc hInv.haccl2 (by intro h; simp at h)
  · exact forall_mem_snoc hInv.hirq (by intro h; simp at h)
  · exact hInv.hllcmem
  · intro _
    rw [filtmap_append, if_neg (by simp), hInv.sl2acc rfl]
    simp
  · exact hInv.hal2
  · exact fun h => absurd h (by decide)
  · exact hInv.hirqc
  · intro _
    have := hInv.hnl2 rfl
    simp only []
    omega
  · exact fun h => absurd h (by decide)

theorem WalkInv_cpu_nocoh (s : soc_in) (st : walk_state) (t : Nat)
    (hInv : WalkInv s false st) (hlen : st.tiles.length = t)
    (hc : (cellAt s t).ip_type = "cpu")
    (hA : (cellAt s t).ip_type ∉ s.accelerator_types) :
    WalkInv s false
      { st with
        tiles := st.tiles ++
          [{ type := "cpu", row := t / s.cols, col := t % s.cols,
             design_point := (cellAt s t).point,
             has_l2 := (cellAt s t).has_l2,
             has_tdvfs := (cellAt s t).has_tdvfs,
             has_ddr := (cellAt s t).has_ddr,
             cpu_id := (st.cpu_id : Int) }],
        cpu_id := st.cpu_id + 1 } := by
  have hA2 : "cpu" ∉ s.accelerator_types := by rwa [hc] at hA
  have hrl : roleOf s.accelerator_types (cellAt s t) = "cpu" := by
    simp [roleOf, hc, hA2]
  refine
    { hrole := ?_, hpos := ?_, hdvfs := ?_, ccpu := ?_, cmem := ?_,
      cslm := ?_, cslmddr := ?_, cacc := ?_, cllc := ?_, hllcn := ?_,
      hl2n := ?_, hl2 := ?_, hcpul2 := ?_, hmemllc := ?_, haccl2 := ?_,
      hirq := ?_, hllcmem := ?_, sl2acc := ?_, hal2 := ?_, hal2n := ?_,
      hirqc := ?_, hnl2 := ?_, hnl2n := ?_ }
  · exact indexed_append hInv.hrole (by rw [hlen, hrl])
  · exact indexed_append hInv.hpos (by rw [hlen]; exact ⟨rfl, rfl, rfl⟩)
  · exact forall_mem_snoc hInv.hdvfs rfl
  · exact CatInv_hit hInv.ccpu rfl rfl
  · exact CatInv_miss hInv.cmem (by simp) rfl
  · exact CatInv_miss hInv.cslm (by simp) rfl
  · exact CatInv_miss hInv.cslmddr (by simp) rfl
  · exact CatInv_miss hInv.cacc (by simp) rfl
  · exact fun h => absurd h (by decide)
  · exact fun h => forall_mem_snoc (hInv.hllcn h) rfl
  · exact fun h => forall_mem_snoc (hInv.hl2n h) rfl
  · exact forall_mem_snoc hInv.hl2 (by simp)
  · exact forall_mem_snoc hInv.hcpul2 (fun _ h => absurd h (by decide))
  · exact forall_mem_snoc hInv.hmemllc (by intro h; simp at h)
  · exact forall_mem_snoc hInv.haccl2 (by intro h; simp at h)
  · exact forall_mem_snoc hInv.hirq (by intro h; simp at h)
  · exact fun h => absurd h (by decide)
  · exact fun h => absurd h (by decide)
  · exact hInv.hal2
  · exact hInv.hal2n
  · exact hInv.hirqc
  · exact fun h => absurd h (by decide)
  · exact hInv.hnl2n

theorem WalkInv_slm (s : soc_in) (coh : Bool) (st : walk_state) (t : Nat)
    (hInv : WalkInv s coh st) (hlen : st.tiles.length = t)
    (hc : (cellAt s t).ip_type = "slm") (hd : (cellAt s t).has_ddr = 0)
    (hA : (cellAt s t).ip_type ∉ s.accelerator_types) :
    WalkInv s coh
      { st with
        tiles := st.tiles ++
          [{ type := "slm", row := t / s.cols, col := t % s.cols,
             design_point := (cellAt s t).point,
             has_l2 := (cellAt s t).has_l2,
             has_tdvfs := (cellAt s t).has_tdvfs,
             has_ddr := (cellAt s t).has_ddr,
             slm_id := (st.slm_id : Int) }],
        slm_id := st.slm_id + 1 } := by
  have hA2 : "slm" ∉ s.accelerator_types := by rwa [hc] at hA
  have hrl : roleOf s.accelerator_types (cellAt s t) = "slm" := by
    simp [roleOf, hc, hd, hA2]
  refine
    { hrole := ?_, hpos := ?_, hdvfs := ?_, ccpu := ?_, cmem := ?_,
      cslm := ?_, cslmddr := ?_, cacc := ?_, cllc := ?_, hllcn := ?_,
      hl2n := ?_, hl2 := ?_, hcpul2 := ?_, hmemllc := ?_, haccl2 := ?_,
      hirq := ?_, hllcmem := ?_, sl2acc := ?_, hal2 := ?_, hal2n := ?_,
      hirqc := ?_, hnl2 := ?_, hnl2n := ?_ }
  · exact indexed_append hInv.hrole (by rw [hlen, hrl])
  · exact indexed_append hInv.hpos (by rw [hlen]; exact ⟨rfl, rfl, rfl⟩)
  · exact forall_mem_snoc hInv.hdvfs rfl
  · exact CatInv_miss hInv.ccpu (by simp) rfl
  · exact CatInv_miss hInv.cmem (by simp) rfl
  · exact CatInv_hit hInv.cslm rfl rfl
  · exact CatInv_miss hInv.cslmddr (by simp) rfl
  · exact CatInv_miss hInv.cacc (by simp) rfl
  · exact fun h => CatInv_miss (hInv.cllc h) (by simp) rfl
  · exact fun h => forall_mem_snoc (hInv.hllcn h) rfl
  · exact fun h => forall_mem_snoc (hInv.hl2n h) rfl
  · exact forall_mem_snoc hInv.hl2 (by simp)
  · exact forall_mem_snoc hInv.hcpul2 (by intro h; simp at h)
  · exact forall_mem_snoc hInv.hmemllc (by intro h; simp at h)
  · exact forall_mem_snoc hInv.haccl2 (by intro h; simp at h)
  · exact forall_mem_snoc hInv.hirq (by intro h; simp at h)
  · exact hInv.hllcmem
  · intro h
    rw [filtmap_append, if_neg (by simp), hInv.sl2acc h]
    simp
  · exact hInv.hal2
  · exact hInv.hal2n
  · exact hInv.hirqc
  · exact hInv.hnl2
  · exact hInv.hnl2n

theorem WalkInv_slmddr (s : soc_in) (coh : Bool) (st : walk_state) (t : Nat)
    (hInv : WalkInv s coh st) (hlen : st.tiles.length = t)
    (hc : (cellAt s t).ip_type = "slm") (hd : (cellAt s t).has_ddr ≠ 0)
    (hA : (cellAt s t).ip_type ∉ s.accelerator_types) :
    WalkInv s coh
      { st with
        tiles := st.tiles ++
          [{ type := "slmddr", row := t / s.cols, col := t % s.cols,
             design_point := (cellAt s t).point,
             has_l2 := (cellAt s t).has_l2,
             has_tdvfs := (cellAt s t).has_tdvfs,
             has_ddr := (cellAt s t).has_ddr,
             slmddr_id := (st.slmddr_id : Int) }],
        slmddr_id := st.slmddr_id + 1 } := by
  have hA2 : "slm" ∉ s.accelerator_types := by rwa [hc] at hA
  have hrl : roleOf s.accelerator_types (cellAt s t) = "slmddr" := by
    simp [roleOf, hc, hd, hA2]
  refine
    { hrole := ?_, hpos := ?_, hdvfs := ?_, ccpu := ?_, cmem := ?_,
      cslm := ?_, cslmddr := ?_, cacc := ?_, cllc := ?_, hllcn := ?_,
      hl2n := ?_, hl2 := ?_, hcpul2 := ?_, hmemllc := ?_, haccl2 := ?_,
      hirq := ?_, hllcmem := ?_, sl2acc := ?_, hal2 := ?_, hal2n := ?_,
      hirqc := ?_, hnl2 := ?_, hnl2n := ?_ }
  · exact indexed_append hInv.hrole (by rw [hlen, hrl])
  · exact indexed_append hInv.hpos (by rw [hlen]; exact ⟨rfl, rfl, rfl⟩)
  · exact forall_mem_snoc hInv.hdvfs rfl
  · exact CatInv_miss hInv.ccpu (by simp) rfl
  · exact CatInv_miss hInv.cmem (by simp) rfl
  · exact CatInv_miss hInv.cslm (by simp) rfl
  · exact CatInv_hit hInv.cslmddr rfl rfl
  · exact CatInv_miss hInv.cacc (by simp) rfl
  · exact fun h => CatInv_miss (hInv.cllc h) (by simp) rfl
  · exact fun h => forall_mem_snoc (hInv.hllcn h) rfl
  · exact fun h => forall_mem_snoc (hInv.hl2n h) rfl
  · exact forall_mem_snoc hInv.hl2 (by simp)
  · exact forall_mem_snoc hInv.hcpul2 (by intro h; simp at h)
  · exact forall_mem_snoc hInv.hmemllc (by intro h; simp at h)
  · exact forall_mem_snoc hInv.haccl2 (by intro h; simp at h)
  · exact forall_mem_snoc hInv.hirq (by intro h; simp at h)
  · exact hInv.hllcmem
  · intro h
    rw [filtmap_append, if_neg (by simp), hInv.sl2acc h]
    simp
  · exact hInv.hal2
  · exact hInv.hal2n
  · exact hInv.hirqc
  · exact hInv.hnl2
  · exact hInv.hnl2n

theorem WalkInv_mem_coh (s : soc_in) (st : walk_state) (t : Nat)
    (hInv : WalkInv s true st) (hlen : st.tiles.length = t)
    (hc : (cellAt s t).ip_type = "mem")
    (hA : (cellAt s t).ip_type ∉ s.accelerator_types) :
    WalkInv s true
      { st with
        tiles := st.tiles ++
          [{ type := "mem", row := t / s.cols, col := t % s.cols,
             design_point := (cellAt s t).point,
             has_l2 := (cellAt s t).has_l2,
             has_tdvfs := (cellAt s t).has_tdvfs,
             has_ddr := (cellAt s t).has_ddr, mem_id := (st.mem_id : Int),
             llc := { id := (st.llc_id : Int),
                      idx := ((24 + st.llc_id : Nat) : Int) } }],
        llcs := st.llcs ++
          [{ id := (st.llc_id : Int), idx := ((24 + st.llc_id : Nat) : Int) }],
        mem_id := st.mem_id + 1, llc_id := st.llc_id + 1 } := by
  have hA2 : "mem" ∉ s.accelerator_types := by rwa [hc] at hA
  have hrl : roleOf s.accelerator_types (cellAt s t) = "mem" := by
    simp [roleOf, hc, hA2]
  have hlm := hInv.hllcmem rfl
  refine
    { hrole := ?_, hpos := ?_, hdvfs := ?_, ccpu := ?_, cmem := ?_,
      cslm := ?_, cslmddr := ?_, cacc := ?_, cllc := ?_, hllcn := ?_,
      hl2n := ?_, hl2 := ?_, hcpul2 := ?_, hmemllc := ?_, haccl2 := ?_,
      hirq := ?_, hllcmem := ?_, sl2acc := ?_, hal2 := ?_, hal2n := ?_,
      hirqc := ?_, hnl2 := ?_, hnl2n := ?_ }
  · exact indexed_append hInv.hrole (by rw [hlen, hrl])
  · exact indexed_append hInv.hpos (by rw [hlen]; exact ⟨rfl, rfl, rfl⟩)
  · exact forall_mem_snoc hInv.hdvfs rfl
  · exact CatInv_miss hInv.ccpu (by simp) rfl
  · exact CatInv_hit hInv.cmem rfl rfl
  · exact CatInv_miss hInv.cslm (by simp) rfl
  · exact CatInv_miss hInv.cslmddr (by simp) rfl
  · exact CatInv_miss hInv.cacc (by simp) rfl
  · exact fun _ => CatInv_hit (hInv.cllc rfl) rfl rfl
  · exact fun h => absurd h (by decide)
  · exact fun h => absurd h (by decide)
  · exact forall_mem_snoc hInv.hl2 (by simp)
  · exact forall_mem_snoc hInv.hcpul2 (by intro h; simp at h)
  · refine forall_mem_snoc hInv.hmemllc ?_
    intro _ _
    constructor
    · show (st.llc_id : Int) = (st.mem_id : Int)
      omega
    · show ((24 + st.llc_id : Nat) : Int) = (st.mem_id : Int) + 24
      push_cast
      omega
  · exact forall_mem_snoc hInv.haccl2 (by intro h; simp at h)
  · exact forall_mem_snoc hInv.hirq (by intro h; simp at h)
  · intro _
    show st.llc_id + 1 = st.mem_id + 1
    omega
  · intro _
    rw [filtmap_append, if_neg (by simp), hInv.sl2acc rfl]
    simp
  · exact hInv.hal2
  · exact fun h => absurd h (by decide)
  · exact hInv.hirqc
  · exact hInv.hnl2
  · exact fun h => absurd h (by decide)

theorem WalkInv_mem_nocoh (s : soc_in) (st : walk_state) (t : Nat)
    (hInv : WalkInv s false st) (hlen : st.tiles.length = t)
    (hc : (cellAt s t).ip_type = "mem")
    (hA : (cellAt s t).ip_type ∉ s.accelerator_types) :
    WalkInv s false
      { st with
        tiles := st.tiles ++
          [{ type := "mem", row := t / s.cols, col := t % s.cols,
             design_point := (cellAt s t).point,
             has_l2 := (cellAt s t).has_l2,
             has_tdvfs := (cellAt s t).has_tdvfs,
             has_ddr := (cellAt s t).has_ddr,
             mem_id := (st.mem_id : Int) }],
        mem_id := st.mem_id + 1 } := by
  have hA2 : "mem" ∉ s.accelerator_types := by rwa [hc] at hA
  have hrl : roleOf s.accelerator_types (cellAt s t) = "mem" := by
    simp [roleOf, hc, hA2]
  refine
    { hrole := ?_, hpos := ?_, hdvfs := ?_, ccpu := ?_, cmem := ?_,
      cslm := ?_, cslmddr := ?_, cacc := ?_, cllc := ?_, hllcn := ?_,
      hl2n := ?_, hl2 := ?_, hcpul2 := ?_, hmemllc := ?_, haccl2 := ?_,
      hirq := ?_, hllcmem := ?_, sl2acc := ?_, hal2 := ?_, hal2n := ?_,
      hirqc := ?_, hnl2 := ?_, hnl2n := ?_ }
  · exact indexed_append hInv.hrole (by rw [hlen, hrl])
  · exact indexed_append hInv.hpos (by rw [hlen]; exact ⟨rfl, rfl, rfl⟩)
  · exact forall_mem_snoc hInv.hdvfs rfl
  · exact CatInv_miss hInv.ccpu (by simp) rfl
  · exact CatInv_hit hInv.cmem rfl rfl
  · exact CatInv_miss hInv.cslm (by simp) rfl
  · exact CatInv_miss hInv.cslmddr (by simp) rfl
  · exact CatInv_miss hInv.cacc (by simp) rfl
  · exact fun h => absurd h (by decide)
  · exact fun h => forall_mem_snoc (hInv.hllcn h) rfl
  · exact fun h => forall_mem_snoc (hInv.hl2n h) rfl
  · exact forall_mem_snoc hInv.hl2 (by simp)
  · exact forall_mem_snoc hInv.hcpul2 (by intro h; simp at h)
  · exact forall_mem_snoc hInv.hmemllc (fun _ h => absurd h (by decide))
  · exact forall_mem_snoc hInv.haccl2 (by intro h; simp at h)
  · exact forall_mem_snoc hInv.hirq (by intro h; simp at h)
  · exact fun h => absurd h (by decide)
  · exact fun h => absurd h (by decide)
  · exact hInv.hal2
  · exact hInv.hal2n
  · exact hInv.hirqc
  · exact fun h => absurd h (by decide)
  · exact hInv.hnl2n

theorem WalkInv_misc (s : soc_in) (coh : Bool) (st : walk_state) (t : Nat)
    (hInv : WalkInv s coh st) (hlen : st.tiles.length = t)
    (hc : (cellAt s t).ip_type = "IO")
    (hA : (cellAt s t).ip_type ∉ s.accelerator_types) :
    WalkInv s coh
      { st with
        tiles := st.tiles ++
          [{ type := "misc", row := t / s.cols, col := t % s.cols,
             design_point := (cellAt s t).point,
             has_l2 := (cellAt s t).has_l2,
             has_tdvfs := (cellAt s t).has_tdvfs,
             has_ddr := (cellAt s t).has_ddr }] } := by
  have hA2 : "IO" ∉ s.accelerator_types := by rwa [hc] at hA
  have hrl : roleOf s.accelerator_types (cellAt s t) = "misc" := by
    simp [roleOf, hc, hA2]
  refine
    { hrole := ?_, hpos := ?_, hdvfs := ?_, ccpu := ?_, cmem := ?_,
      cslm := ?_, cslmddr := ?_, cacc := ?_, cllc := ?_, hllcn := ?_,
      hl2n := ?_, hl2 := ?_, hcpul2 := ?_, hmemllc := ?_, haccl2 := ?_,
      hirq := ?_, hllcmem := ?_, sl2acc := ?_, hal2 := ?_, hal2n := ?_,
      hirqc := ?_, hnl2 := ?_, hnl2n := ?_ }
  · exact indexed_append hInv.hrole (by rw [hlen, hrl])
  · exact indexed_append hInv.hpos (by rw [hlen]; exact ⟨rfl, rfl, rfl⟩)
  · exact forall_mem_snoc hInv.hdvfs rfl
  · exact CatInv_miss hInv.ccpu (by simp) rfl
  · exact CatInv_miss hInv.cmem (by simp) rfl
  · exact CatInv_miss hInv.cslm (by simp) rfl
  · exact CatInv_miss hInv.cslmddr (by simp) rfl
  · exact CatInv_miss hInv.cacc (by simp) rfl
  · exact fun h => CatInv_miss (hInv.cllc h) (by simp) rfl
  · exact fun h => forall_mem_snoc (hInv.hllcn h) rfl
  · exact fun h => forall_mem_snoc (hInv.hl2n h) rfl
  · exact forall_mem_snoc hInv.hl2 (by simp)
  · exact forall_mem_snoc hInv.hcpul2 (by intro h; simp at h)
  · exact forall_mem_snoc hInv.hmemllc (by intro h; simp at h)
  · exact forall_mem_snoc hInv.haccl2 (by intro h; simp at h)
  · exact forall_mem_snoc hInv.hirq (by intro h; simp at h)
  · exact hInv.hllcmem
  · intro h
    rw [filtmap_append, if_neg (by simp), hInv.sl2acc h]
    simp
  · exact hInv.hal2
  · exact hInv.hal2n
  · exact hInv.hirqc
  · exact hInv.hnl2
  · exact hInv.hnl2n

theorem WalkInv_empty (s : soc_in) (coh : Bool) (st : walk_state) (t : Nat)
    (hInv : WalkInv s coh st) (hlen : st.tiles.length = t)
    (h1 : (cellAt s t).ip_type ≠ "cpu") (h2 : (cellAt s t).ip_type ≠ "slm")
    (h3 : (cellAt s t).ip_type ≠ "mem") (h4 : (cellAt s t).ip_type ≠ "IO")
    (hA : (cellAt s t).ip_type ∉ s.accelerator_types) :
    WalkInv s coh
      { st with
        tiles := st.tiles ++
          [{ type := "empty", row := t / s.cols, col := t % s.cols,
             design_point := (cellAt s t).point,
             has_l2 := (cellAt s t).has_l2,
             has_tdvfs := (cellAt s t).has_tdvfs,
             has_ddr := (cellAt s t).has_ddr }] } := by
  have hrl : roleOf s.accelerator_types (cellAt s t) = "empty" := by
    simp [roleOf, h1, h2, h3, h4, hA]
  refine
    { hrole := ?_, hpos := ?_, hdvfs := ?_, ccpu := ?_, cmem := ?_,
      cslm := ?_, cslmddr := ?_, cacc := ?_, cllc := ?_, hllcn := ?_,
      hl2n := ?_, hl2 := ?_, hcpul2 := ?_, hmemllc := ?_, haccl2 := ?_,
      hirq := ?_, hllcmem := ?_, sl2acc := ?_, hal2 := ?_, hal2n := ?_,
      hirqc := ?_, hnl2 := ?_, hnl2n := ?_ }
  · exact indexed_append hInv.hrole (by rw [hlen, hrl])
  · exact indexed_append hInv.hpos (by rw [hlen]; exact ⟨rfl, rfl, rfl⟩)
  · exact forall_mem_snoc hInv.hdvfs rfl
  · exact CatInv_miss hInv.ccpu (by simp) rfl
  · exact CatInv_miss hInv.cmem (by simp) rfl
  · exact CatInv_miss hInv.cslm (by simp) rfl
  · exact CatInv_miss hInv.cslmddr (by simp) rfl
  · exact CatInv_miss hInv.cacc (by simp) rfl
  · exact fun h => CatInv_miss (hInv.cllc h) (by simp) rfl
  · exact fun h => forall_mem_snoc (hInv.hllcn h) rfl
  · exact fun h => forall_mem_snoc (hInv.hl2n h) rfl
  · exact forall_mem_snoc hInv.hl2 (by simp)
  · exact forall_mem_snoc hInv.hcpul2 (by intro h; simp at h)
  · exact forall_mem_snoc hInv.hmemllc (by intro h; simp at h)
  · exact forall_mem_snoc hInv.haccl2 (by intro h; simp at h)
  · exact forall_mem_snoc hInv.hirq (by intro h; simp at h)
  · exact hInv.hllcmem
  · intro h
    rw [filtmap_append, if_neg (by simp), hInv.sl2acc h]
    simp
  · exact hInv.hal2
  · exact hInv.hal2n
  · exact hInv.hirqc
  · exact hInv.hnl2
  · exact hInv.hnl2n

theorem WalkInv_acc_l2 (s : soc_in) (st : walk_state) (t : Nat)
    (hInv : WalkInv s true st) (hlen : st.tiles.length = t)
    (hA : (cellAt s t).ip_type ∈ s.accelerator_types)
    (hl2c : (cellAt s t).has_l2 = 1) :
    WalkInv s true
      { st with
        tiles := st.tiles ++
          [{ type := "acc", row := t / s.cols, col := t % s.cols,
             design_point := (cellAt s t).point,
             has_l2 := (cellAt s t).has_l2,
             has_tdvfs := (cellAt s t).has_tdvfs,
             has_ddr := (cellAt s t).has_ddr,
             l2 := { id := (st.acc_l2_id : Int), idx := -1 },
             acc := accInfoOf st (cellAt s t) }],
        accelerators := st.accelerators ++ [accInfoOf st (cellAt s t)],
        l2s := st.l2s ++ [{ id := (st.acc_l2_id : Int), idx := -1 }],
        nl2 := st.nl2 + 1,
        nthirdparty :=
          if (cellAt s t).vendor ≠ "sld" then st.nthirdparty + 1
          else st.nthirdparty,
        acc_id := st.acc_id + 1, acc_l2_id := st.acc_l2_id + 1,
        acc_irq := nextAccIrq s.cpu_arch st.acc_irq } := by
  have hrl : roleOf s.accelerator_types (cellAt s t) = "acc" :=
    roleOf_of_mem hA
  have hge := hInv.hal2
  refine
    { hrole := ?_, hpos := ?_, hdvfs := ?_, ccpu := ?_, cmem := ?_,
      cslm := ?_, cslmddr := ?_, cacc := ?_, cllc := ?_, hllcn := ?_,
      hl2n := ?_, hl2 := ?_, hcpul2 := ?_, hmemllc := ?_, haccl2 := ?_,
      hirq := ?_, hllcmem := ?_, sl2acc := ?_, hal2 := ?_, hal2n := ?_,
      hirqc := ?_, hnl2 := ?_, hnl2n := ?_ }
  · exact indexed_append hInv.hrole (by rw [hlen, hrl])
  · exact indexed_append hInv.hpos (by rw [hlen]; exact ⟨rfl, rfl, rfl⟩)
  · exact forall_mem_snoc hInv.hdvfs rfl
  · exact CatInv_miss hInv.ccpu (by simp [accInfoOf]) rfl
  · exact CatInv_miss hInv.cmem (by simp [accInfoOf]) rfl
  · exact CatInv_miss hInv.cslm (by simp [accInfoOf]) rfl
  · exact CatInv_miss hInv.cslmddr (by simp [accInfoOf]) rfl
  · exact CatInv_hit hInv.cacc rfl (by simp [accInfoOf])
  · exact fun _ => CatInv_miss (hInv.cllc rfl) (by simp [accInfoOf]) rfl
  · exact fun h => absurd h (by decide)
  · exact fun h => absurd h (by decide)
  · refine forall_mem_snoc hInv.hl2 ?_
    refine ⟨fun _ => ⟨rfl, Or.inr ⟨rfl, hl2c⟩⟩, fun _ => ?_⟩
    show (st.acc_l2_id : Int) ≠ -1
    omega
  · exact forall_mem_snoc hInv.hcpul2 (by intro h; simp [accInfoOf] at h)
  · exact forall_mem_snoc hInv.hmemllc (by intro h; simp [accInfoOf] at h)
  · exact forall_mem_snoc hInv.haccl2 (fun _ _ _ => rfl)
  · refine forall_mem_snoc hInv.hirq ?_
    intro _
    exact ⟨st.acc_id, rfl, by show (st.acc_irq : Int) = _; rw [hInv.hirqc],
      rfl⟩
  · exact fun h => hInv.hllcmem h
  · intro _
    rw [filtmap_append, if_pos (by simp [accInfoOf, hl2c]),
      hInv.sl2acc rfl]
    show _ ++ [(st.acc_l2_id : Int)]
      = natRangeFrom (get_cpu_num s) (st.acc_l2_id + 1 - get_cpu_num s)
    have hk : st.acc_l2_id + 1 - get_cpu_num s
        = (st.acc_l2_id - get_cpu_num s) + 1 := by omega
    rw [hk, natRangeFrom_succ]
    have he : get_cpu_num s + (st.acc_l2_id - get_cpu_num s)
        = st.acc_l2_id := by omega
    rw [he]
  · show get_cpu_num s ≤ st.acc_l2_id + 1
    omega
  · exact fun h => absurd h (by decide)
  · show nextAccIrq s.cpu_arch st.acc_irq = accIrqOf s.cpu_arch (st.acc_id + 1)
    rw [hInv.hirqc, nextAccIrq_eq]
  · intro _
    have := hInv.hnl2 rfl
    show st.nl2 + 1 = st.cpu_id + (st.acc_l2_id + 1 - get_cpu_num s)
    omega
  · exact fun h => absurd h (by decide)

theorem WalkInv_acc_plain (s : soc_in) (coh : Bool) (st : walk_state)
    (t : Nat) (hInv : WalkInv s coh st) (hlen : st.tiles.length = t)
    (hA : (cellAt s t).ip_type ∈ s.accelerator_types)
    (hno : ¬(coh = true ∧ (cellAt s t).has_l2 = 1)) :
    WalkInv s coh
      { st with
        tiles := st.tiles ++
          [{ type := "acc", row := t / s.cols, col := t % s.cols,
             design_point := (cellAt s t).point,
             has_l2 := (cellAt s t).has_l2,
             has_tdvfs := (cellAt s t).has_tdvfs,
             has_ddr := (cellAt s t).has_ddr,
             acc := accInfoOf st (cellAt s t) }],
        accelerators := st.accelerators ++ [accInfoOf st (cellAt s t)],
        nthirdparty :=
          if (cellAt s t).vendor ≠ "sld" then st.nthirdparty + 1
          else st.nthirdparty,
        acc_id := st.acc_id + 1,
        acc_irq := nextAccIrq s.cpu_arch st.acc_irq } := by
  have hrl : roleOf s.accelerator_types (cellAt s t) = "acc" :=
    roleOf_of_mem hA
  refine
    { hrole := ?_, hpos := ?_, hdvfs := ?_, ccpu := ?_, cmem := ?_,
      cslm := ?_, cslmddr := ?_, cacc := ?_, cllc := ?_, hllcn := ?_,
      hl2n := ?_, hl2 := ?_, hcpul2 := ?_, hmemllc := ?_, haccl2 := ?_,
      hirq := ?_, hllcmem := ?_, sl2acc := ?_, hal2 := ?_, hal2n := ?_,
      hirqc := ?_, hnl2 := ?_, hnl2n := ?_ }
  · exact indexed_append hInv.hrole (by rw [hlen, hrl])
  · exact indexed_append hInv.hpos (by rw [hlen]; exact ⟨rfl, rfl, rfl⟩)
  · exact forall_mem_snoc hInv.hdvfs rfl
  · exact CatInv_miss hInv.ccpu (by simp [accInfoOf]) rfl
  · exact CatInv_miss hInv.cmem (by simp [accInfoOf]) rfl
  · exact CatInv_miss hInv.cslm (by simp [accInfoOf]) rfl
  · exact CatInv_miss hInv.cslmddr (by simp [accInfoOf]) rfl
  · exact CatInv_hit hInv.cacc rfl (by simp [accInfoOf])
  · exact fun h => CatInv_miss (hInv.cllc h) (by simp [accInfoOf]) rfl
  · exact fun h => forall_mem_snoc (hInv.hllcn h) rfl
  · exact fun h => forall_mem_snoc (hInv.hl2n h) rfl
  · refine forall_mem_snoc hInv.hl2 ?_
    refine ⟨fun h => absurd rfl h, ?_⟩
    rintro ⟨hcoh, hv | ⟨_, hh⟩⟩
    · simp [accInfoOf] at hv
    · exact absurd ⟨hcoh, hh⟩ hno
  · exact forall_mem_snoc hInv.hcpul2 (by intro h; simp [accInfoOf] at h)
  · exact forall_mem_snoc hInv.hmemllc (by intro h; simp [accInfoOf] at h)
  · exact forall_mem_snoc hInv.haccl2 (fun _ hcoh hh => absurd ⟨hcoh, hh⟩ hno)
  · refine forall_mem_snoc hInv.hirq ?_
    intro _
    exact ⟨st.acc_id, rfl, by show (st.acc_irq : Int) = _; rw [hInv.hirqc],
      rfl⟩
  · exact hInv.hllcmem
  · intro h
    have hh : (cellAt s t).has_l2 ≠ 1 := fun x => hno ⟨h, x⟩
    rw [filtmap_append, if_neg (by simp [accInfoOf, hh]), hInv.sl2acc h]
    simp
  · exact hInv.hal2
  · exact hInv.hal2n
  · show nextAccIrq s.cpu_arch st.acc_irq = accIrqOf s.cpu_arch (st.acc_id + 1)
    rw [hInv.hirqc, nextAccIrq_eq]
  · exact hInv.hnl2
  · exact hInv.hnl2n

/-- Mid-walk, a category counter equals the number of already-processed
cells of its role. -/
theorem counter_eq_role_count {s : soc_in} {st : walk_state}
    (r : String) (f : tile_info → Int) {cnt : Nat}
    (hcat : CatInv r f cnt st.tiles)
    (hrole : ∀ i t, st.tiles[i]? = some t →
      t.type = roleOf s.accelerator_types (cellAt s i)) :
    cnt = (List.range' 0 st.tiles.length).countP
      (fun u => roleOf s.accelerator_types (cellAt s u) == r) := by
  have h1 : ((st.tiles.filter (fun t => t.type == r)).map f).length = cnt := by
    rw [hcat.2]
    simp [natRange]
  rw [List.length_map, ← List.countP_eq_length_filter] at h1
  rw [← h1]
  exact countP_type_eq (fun u => roleOf s.accelerator_types (cellAt s u)) r
    st.tiles 0 (by simpa using hrole)

theorem count_ip_cpu (s : soc_in) (hwf : "cpu" ∉ s.accelerator_types)
    (n : Nat) :
    (List.range' 0 n).countP
        (fun u => roleOf s.accelerator_types (cellAt s u) == "cpu")
      = (List.range' 0 n).countP
        (fun u => (cellAt s u).ip_type == "cpu") :=
  List.countP_congr (fun u _ => by
    simp only [beq_iff_eq]
    exact roleOf_cpu hwf)

theorem count_ip_mem (s : soc_in) (hwf : "mem" ∉ s.accelerator_types)
    (n : Nat) :
    (List.range' 0 n).countP
        (fun u => roleOf s.accelerator_types (cellAt s u) == "mem")
      = (List.range' 0 n).countP
        (fun u => (cellAt s u).ip_type == "mem") :=
  List.countP_congr (fun u _ => by
    simp only [beq_iff_eq]
    exact roleOf_mem hwf)

theorem range'_zero_succ_concat (t : Nat) :
    List.range' 0 (t + 1) = List.range' 0 t ++ [t] := by
  have := @List.range'_concat 1 0 t
  simpa using this

theorem walkFrom_succ (s : soc_in) (coh : Bool) (st : walk_state)
    (t m : Nat) :
    walkFrom s coh st t (m + 1) =
      (do
        let st1 ← step coh s.accelerator_types s.cpu_arch st (t / s.cols)
          (t % s.cols) (cellAt s t)
        walkFrom s coh st1 (t + 1) m) := rfl

theorem except_bind_ok {α β : Type} (a : α)
    (f : α → Except String β) :
    (do
      let x ← Except.ok (ε := String) a
      f x) = f a := rfl

/-- The invariant holds for the initial state of the walk. -/
theorem WalkInv_init (s : soc_in) (coh : Bool) :
    WalkInv s coh (initWalkState s) := by
  refine ⟨?_, ?_, ?_, ?_, ?_, ?_, ?_, ?_, ?_, ?_, ?_, ?_, ?_, ?_, ?_, ?_,
    ?_, ?_, ?_, ?_, ?_, ?_, ?_⟩ <;>
    simp [CatInv, natRange, natRangeFrom, accIrqOf, initWalkState]

/-- Master lemma: given a well-formed accelerator set and category counts
within the platform ceilings (needed only when coherence is on, where the
reserved index bands are read), the walk from any invariant state runs to
completion and preserves the invariant. -/
theorem walkFrom_ok (s : soc_in) (coh : Bool) (hwf : WFacc s)
    (hcap : coh = true →
      get_cpu_num s ≤ NCPU_MAX ∧ get_mem_num s ≤ NMEM_MAX) :
    ∀ (n t : Nat) (st : walk_state), WalkInv s coh st →
      st.tiles.length = t → t + n = ntilesOf s →
      ∃ st2, walkFrom s coh st t n = Except.ok st2 ∧ WalkInv s coh st2 ∧
        st2.tiles.length = ntilesOf s := by
  obtain ⟨hw1, hw2, hw3, hw4⟩ := hwf
  intro n
  induction n with
  | zero =>
    intro t st hInv hlen hsum
    refine ⟨st, rfl, hInv, by omega⟩
  | succ m ih =>
    intro t st hInv hlen hsum
    by_cases hA : (cellAt s t).ip_type ∈ s.accelerator_types
    · -- accelerator tile
      have h1 : (cellAt s t).ip_type ≠ "cpu" := fun h => hw1 (h ▸ hA)
      have h2 : (cellAt s t).ip_type ≠ "slm" := fun h => hw2 (h ▸ hA)
      have h3 : (cellAt s t).ip_type ≠ "mem" := fun h => hw3 (h ▸ hA)
      have h4 : (cellAt s t).ip_type ≠ "IO" := fun h => hw4 (h ▸ hA)
      by_cases hcl : coh = true ∧ (cellAt s t).has_l2 = 1
      · obtain ⟨hcoh, hl2c⟩ := hcl
        subst hcoh
        obtain ⟨st2, hrun, hInv2, hlen2⟩ :=
          ih (t + 1) _ (WalkInv_acc_l2 s st t hInv hlen hA hl2c)
            (by simp [hlen]) (by omega)
        refine ⟨st2, ?_, hInv2, hlen2⟩
        rw [walkFrom_succ, step_acc_l2 s.accelerator_types s.cpu_arch st
          (t / s.cols) (t % s.cols) (cellAt s t) h1 h2 h3 h4 hA hl2c,
          except_bind_ok]
        exact hrun
      · obtain ⟨st2, hrun, hInv2, hlen2⟩ :=
          ih (t + 1) _ (WalkInv_acc_plain s coh st t hInv hlen hA hcl)
            (by simp [hlen]) (by omega)
        refine ⟨st2, ?_, hInv2, hlen2⟩
        rw [walkFrom_succ, step_acc_plain coh s.accelerator_types s.cpu_arch
          st (t / s.cols) (t % s.cols) (cellAt s t) h1 h2 h3 h4 hA hcl,
          except_bind_ok]
        exact hrun
    · by_cases hc : (cellAt s t).ip_type = "cpu"
      · -- cpu tile
        rcases Bool.dichotomy coh with hcoh | hcoh
        · subst hcoh
          obtain ⟨st2, hrun, hInv2, hlen2⟩ :=
            ih (t + 1) _ (WalkInv_cpu_nocoh s st t hInv hlen hc hA)
              (by simp [hlen]) (by omega)
          refine ⟨st2, ?_, hInv2, hlen2⟩
          rw [walkFrom_succ, step_cpu_nocoh s.accelerator_types s.cpu_arch
            st (t / s.cols) (t % s.cols) (cellAt s t) hc hA, except_bind_ok]
          exact hrun
        · subst hcoh
          -- the CPU counter is strictly below the platform ceiling
          have hcnt := counter_eq_role_count "cpu" (fun u => u.cpu_id)
            hInv.ccpu hInv.hrole
          rw [hlen] at hcnt
          have hrl : roleOf s.accelerator_types (cellAt s t) = "cpu" := by
            simp [roleOf, hc, hw1]
          have hsplit : (List.range' 0 (t + 1)).countP
              (fun u => roleOf s.accelerator_types (cellAt s u) == "cpu")
              = (List.range' 0 t).countP
                (fun u => roleOf s.accelerator_types (cellAt s u) == "cpu")
                + 1 := by
            rw [range'_zero_succ_concat, List.countP_append]
            simp [hrl]
          have hle := countP_range'_prefix_le
            (fun u => roleOf s.accelerator_types (cellAt s u) == "cpu")
            (t + 1) (ntilesOf s) (by omega)
          have htot : (List.range' 0 (ntilesOf s)).countP
              (fun u => roleOf s.accelerator_types (cellAt s u) == "cpu")
              = get_cpu_num s := by
            rw [count_ip_cpu s hw1]
            unfold get_cpu_num
            rw [List.range_eq_range']
          have hlt : st.cpu_id < NCPU_MAX := by
            have := (hcap rfl).1
            omega
          obtain ⟨st2, hrun, hInv2, hlen2⟩ :=
            ih (t + 1) _ (WalkInv_cpu_coh s st t hInv hlen hc hA)
              (by simp [hlen]) (by omega)
          refine ⟨st2, ?_, hInv2, hlen2⟩
          rw [walkFrom_succ, step_cpu_coh s.accelerator_types s.cpu_arch
            st (t / s.cols) (t % s.cols) (cellAt s t) hc hA hlt,
            except_bind_ok]
          exact hrun
      · by_cases hs : (cellAt s t).ip_type = "slm"
        · by_cases hd : (cellAt s t).has_ddr = 0
          · obtain ⟨st2, hrun, hInv2, hlen2⟩ :=
              ih (t + 1) _ (WalkInv_slm s coh st t hInv hlen hs hd hA)
                (by simp [hlen]) (by omega)
            refine ⟨st2, ?_, hInv2, hlen2⟩
            rw [walkFrom_succ, step_slm coh s.accelerator_types s.cpu_arch
              st (t / s.cols) (t % s.cols) (cellAt s t) hs hd hA,
              except_bind_ok]
            exact hrun
          · obtain ⟨st2, hrun, hInv2, hlen2⟩ :=
              ih (t + 1) _ (WalkInv_slmddr s coh st t hInv hlen hs hd hA)
                (by simp [hlen]) (by omega)
            refine ⟨st2, ?_, hInv2, hlen2⟩
            rw [walkFrom_succ, step_slmddr coh s.accelerator_types
              s.cpu_arch st (t / s.cols) (t % s.cols) (cellAt s t) hs hd hA,
              except_bind_ok]
            exact hrun
        · by_cases hm : (cellAt s t).ip_type = "mem"
          · rcases Bool.dichotomy coh with hcoh | hcoh
            · subst hcoh
              obtain ⟨st2, hrun, hInv2, hlen2⟩ :=
                ih (t + 1) _ (WalkInv_mem_nocoh s st t hInv hlen hm hA)
                  (by simp [hlen]) (by omega)
              refine ⟨st2, ?_, hInv2, hlen2⟩
              rw [walkFrom_succ, step_mem_nocoh s.accelerator_types
                s.cpu_arch st (t / s.cols) (t % s.cols) (cellAt s t) hm hA,
                except_bind_ok]
              exact hrun
            · subst hcoh
              have hcnt := counter_eq_role_count "mem" (fun u => u.mem_id)
                hInv.cmem hInv.hrole
              rw [hlen] at hcnt
              have hrl : roleOf s.accelerator_types (cellAt s t) = "mem" :=
                by simp [roleOf, hc, hs, hm, hw3]
              have hsplit : (List.range' 0 (t + 1)).countP
                  (fun u => roleOf s.accelerator_types (cellAt s u) == "mem")
                  = (List.range' 0 t).countP
                    (fun u =>
                      roleOf s.accelerator_types (cellAt s u) == "mem")
                    + 1 := by
                rw [range'_zero_succ_concat, List.countP_append]
                simp [hrl]
              have hle := countP_range'_prefix_le
                (fun u => roleOf s.accelerator_types (cellAt s u) == "mem")
                (t + 1) (ntilesOf s) (by omega)
              have htot : (List.range' 0 (ntilesOf s)).countP
                  (fun u => roleOf s.accelerator_types (cellAt s u) == "mem")
                  = get_mem_num s := by
                rw [count_ip_mem s hw3]
                unfold get_mem_num
                rw [List.range_eq_range']
              have hlt : st.llc_id < NMEM_MAX := by
                have hb := (hcap rfl).2
                have hlm := hInv.hllcmem rfl
                omega
              obtain ⟨st2, hrun, hInv2, hlen2⟩ :=
                ih (t + 1) _ (WalkInv_mem_coh s st t hInv hlen hm hA)
                  (by simp [hlen]) (by omega)
              refine ⟨st2, ?_, hInv2, hlen2⟩
              rw [walkFrom_succ, step_mem_coh s.accelerator_types s.cpu_arch
                st (t / s.cols) (t % s.cols) (cellAt s t) hm hA hlt,
                except_bind_ok]
              exact hrun
          · by_cases hio : (cellAt s t).ip_type = "IO"
            · obtain ⟨st2, hrun, hInv2, hlen2⟩ :=
                ih (t + 1) _ (WalkInv_misc s coh st t hInv hlen hio hA)
                  (by simp [hlen]) (by omega)
              refine ⟨st2, ?_, hInv2, hlen2⟩
              rw [walkFrom_succ, step_misc coh s.accelerator_types
                s.cpu_arch st (t / s.cols) (t % s.cols) (cellAt s t) hio hA,
                except_bind_ok]
              exact hrun
            · obtain ⟨st2, hrun, hInv2, hlen2⟩ :=
                ih (t + 1) _
                  (WalkInv_empty s coh st t hInv hlen hc hs hm hio hA)
                  (by simp [hlen]) (by omega)
              refine ⟨st2, ?_, hInv2, hlen2⟩
              rw [walkFrom_succ, step_empty coh s.accelerator_types
                s.cpu_arch st (t / s.cols) (t % s.cols) (cellAt s t)
                hc hs hm hio hA, except_bind_ok]
              exact hrun

/-- Inversion: a successful `mkSocConfig` comes from a successful walk. -/
theorem mkSocConfig_inv {s : soc_in} {cfg : soc_config}
    (h : mkSocConfig s = Except.ok cfg) :
    ∃ fin, walkFrom s (cohOf s) (initWalkState s) 0 (ntilesOf s)
        = Except.ok fin ∧ cfg = assembleConfig s fin := by
  unfold mkSocConfig at h
  cases hw : walkFrom s (cohOf s) (initWalkState s) 0 (ntilesOf s) with
  | error e =>
    rw [hw] at h
    simp [Except.map] at h
  | ok fin =>
    rw [hw] at h
    simp only [Except.map] at h
    cases h
    exact ⟨fin, rfl, rfl⟩

/-- Totality: under the platform ceilings, resolution succeeds and the
walk invariant holds of the result. -/
theorem mkSocConfig_total (s : soc_in) (hwf : WFacc s)
    (hcap : cohOf s = true →
      get_cpu_num s ≤ NCPU_MAX ∧ get_mem_num s ≤ NMEM_MAX) :
    ∃ fin, walkFrom s (cohOf s) (initWalkState s) 0 (ntilesOf s)
        = Except.ok fin ∧ WalkInv s (cohOf s) fin ∧
        fin.tiles.length = ntilesOf s ∧
        mkSocConfig s = Except.ok (assembleConfig s fin) := by
  obtain ⟨fin, hrun, hInv, hlen⟩ :=
    walkFrom_ok s (cohOf s) hwf hcap (ntilesOf s) 0 (initWalkState s)
      (WalkInv_init s (cohOf s)) rfl (by omega)
  refine ⟨fin, hrun, hInv, hlen, ?_⟩
  unfold mkSocConfig
  rw [hrun]
  rfl

/-- Substituting: from `mkSocConfig s = ok cfg` and the ceilings, obtain
the invariant on the final walk state that assembled `cfg`. -/
theorem mkSocConfig_ok_inv {s : soc_in} {cfg : soc_config}
    (hwf : WFacc s)
    (hcap : cohOf s = true →
      get_cpu_num s ≤ NCPU_MAX ∧ get_mem_num s ≤ NMEM_MAX)
    (hok : mkSocConfig s = Except.ok cfg) :
    ∃ fin, cfg = assembleConfig s fin ∧ WalkInv s (cohOf s) fin ∧
      fin.tiles.length = ntilesOf s := by
  obtain ⟨fin, hrun, hInv, hlen, hok2⟩ := mkSocConfig_total s hwf hcap
  rw [hok] at hok2
  cases hok2
  exact ⟨fin, rfl, hInv, hlen⟩

theorem final_cpu_count {s : soc_in} {coh : Bool} {st : walk_state}
    (hwf1 : "cpu" ∉ s.accelerator_types) (hInv : WalkInv s coh st)
    (hlen : st.tiles.length = ntilesOf s) :
    st.cpu_id = get_cpu_num s := by
  have h := counter_eq_role_count "cpu" (fun u => u.cpu_id)
    hInv.ccpu hInv.hrole
  rw [hlen, count_ip_cpu s hwf1] at h
  unfold get_cpu_num
  rw [List.range_eq_range']
  exact h

theorem final_mem_count {s : soc_in} {coh : Bool} {st : walk_state}
    (hwf3 : "mem" ∉ s.accelerator_types) (hInv : WalkInv s coh st)
    (hlen : st.tiles.length = ntilesOf s) :
    st.mem_id = get_mem_num s := by
  have h := counter_eq_role_count "mem" (fun u => u.mem_id)
    hInv.cmem hInv.hrole
  rw [hlen, count_ip_mem s hwf3] at h
  unfold get_mem_num
  rw [List.range_eq_range']
  exact h

end Socmap

namespace Socmap

/-! ## Claims C1, C2, C5: capacity errors and address/mask partitioning -/

/-- The 17-CPU topology: a 1×17 grid whose every cell is a CPU tile,
coherence disabled. -/
def sCpu17 : soc_in :=
  { rows := 1, cols := 17, topology := fun _ _ => { ip_type := "cpu" },
    cpu_arch := "leon3", cache_en := 0, slm_kbytes := 64,
    accelerator_types := [] }

/-- The resolved configuration for `sCpu17`. -/
def cfgCpu17 : soc_config := ((mkSocConfig sCpu17).toOption).getD {}

/-- Same topology with coherence enabled. -/
def sCpu17coh : soc_in := { sCpu17 with cache_en := 1 }

/-- C1.  The claim asserts that resolution fails fast with a configuration
error identifying the offending category and ceiling whenever a category
exceeds its platform ceiling.  The code contains no such check: with 17
declared CPU tiles (> NCPU_MAX = 16) and coherence disabled, construction
of `soc_config` succeeds and assigns CPU identifier 16; with coherence
enabled it dies with a bare `IndexError` from `L2_CACHE_PINDEX[16]`, not a
configuration error.  This theorem evaluates the code at the failing
input. -/
theorem claim_C1 :
    mkSocConfig sCpu17 = Except.ok cfgCpu17 ∧
    cfgCpu17.ncpu = 17 ∧ NCPU_MAX < cfgCpu17.ncpu ∧
    ((cfgCpu17.tiles.getD 16 {}).cpu_id = 16 ∧
      (cfgCpu17.tiles.getD 16 {}).type = "cpu") ∧
    mkSocConfig sCpu17coh = Except.error "IndexError" :=
  ⟨rfl, by decide, by decide, by decide, rfl⟩

/-- The per-memory-controller masks and bases (lines 1017-1028 and
1056-1075): contiguous and aligned for every admissible count except 3. -/
theorem ddr_mask_bases_ok (arch : String)
    (harch : arch = "leon3" ∨ arch = "ariane" ∨ arch = "ibex")
    (nmem : Nat) (hle : nmem ≤ NMEM_MAX) (h3 : nmem ≠ 3) :
    contiguousMask12 (ddr_mask_of nmem) ∧
    ∀ i < nmem,
      pyand ((ddr_haddr_list arch nmem).getD i 0) (pynot (ddr_mask_of nmem))
        = 0 := by
  have hb : nmem < 17 := by simpa [NMEM_MAX] using Nat.lt_succ_of_le hle
  rcases harch with h | h | h <;> subst h <;>
    revert h3 <;> revert hb <;> revert nmem <;> decide

theorem landAux_zero (f b : Nat) : landAux f 0 b = 0 := by
  cases f <;> rfl

/-- `a & b` with a low-bits-ones first operand is a remainder. -/
theorem landAux_low : ∀ (j f b : Nat), j < f →
    landAux f (2 ^ j - 1) b = b % 2 ^ j := by
  intro j
  induction j with
  | zero =>
    intro f b _
    rw [show (2:Nat) ^ 0 - 1 = 0 from rfl, landAux_zero, Nat.pow_zero,
      Nat.mod_one]
  | succ j ih =>
    intro f b hf
    obtain ⟨f, rfl⟩ : ∃ f2, f = f2 + 1 := ⟨f - 1, by omega⟩
    have hpow : (2:Nat) ^ (j + 1) = 2 * 2 ^ j := by rw [Nat.pow_succ]; ring
    have hp1 : (1:Nat) ≤ 2 ^ j := Nat.one_le_two_pow
    have hne : (2:Nat) ^ (j + 1) - 1 ≠ 0 := by omega
    unfold landAux
    rw [if_neg hne]
    have ha2 : ((2:Nat) ^ (j + 1) - 1) % 2 = 1 := by omega
    have had : ((2:Nat) ^ (j + 1) - 1) / 2 = 2 ^ j - 1 := by omega
    rw [ha2, had, ih f (b / 2) (by omega), Nat.one_mul, hpow, Nat.mod_mul]

/-- `0xfff & x` keeps the low 12 bits. -/
theorem natAnd_xfff (x : Nat) : natAnd 4095 x = x % 4096 := by
  have h := landAux_low 12 4096 x (by norm_num)
  norm_num at h
  exact h

/-- `a & (2^n - 1) = a` whenever `a` fits in `n` bits. -/
theorem landAux_ones : ∀ (f a n : Nat), a < 2 ^ f → a < 2 ^ n →
    landAux f a (2 ^ n - 1) = a := by
  intro f
  induction f with
  | zero =>
    intro a n ha _
    have : a = 0 := by omega
    subst this
    rfl
  | succ f ih =>
    intro a n ha hn
    by_cases h0 : a = 0
    · subst h0
      exact landAux_zero _ _
    · have hn0 : n ≠ 0 := by
        intro h
        rw [h] at hn
        omega
      obtain ⟨m, rfl⟩ : ∃ m, n = m + 1 := ⟨n - 1, by omega⟩
      have hpow : (2:Nat) ^ (m + 1) = 2 * 2 ^ m := by rw [Nat.pow_succ]; ring
      have hp1 : (1:Nat) ≤ 2 ^ m := Nat.one_le_two_pow
      unfold landAux
      rw [if_neg h0]
      have hm2 : ((2:Nat) ^ (m + 1) - 1) % 2 = 1 := by omega
      have hmd : ((2:Nat) ^ (m + 1) - 1) / 2 = 2 ^ m - 1 := by omega
      rw [hm2, hmd, Nat.mul_one, ih (a / 2) m (by omega) (by omega)]
      omega

/-- `a & (2^n - 2^j) = a` whenever `a` is a `2^j`-aligned value fitting in
`n` bits. -/
theorem landAux_align : ∀ (f j n q : Nat), j ≤ n → 2 ^ j * q < 2 ^ n →
    2 ^ j * q < 2 ^ f → landAux f (2 ^ j * q) (2 ^ n - 2 ^ j) = 2 ^ j * q := by
  intro f
  induction f with
  | zero =>
    intro j n q _ _ hf
    have h0 : 2 ^ j * q = 0 := by omega
    rw [h0]
    rfl
  | succ f ih =>
    intro j n q hjn hn hf
    cases j with
    | zero =>
      rw [Nat.pow_zero, Nat.one_mul] at *
      exact landAux_ones (f + 1) q n hf hn
    | succ j =>
      by_cases h0 : 2 ^ (j + 1) * q = 0
      · rw [h0, landAux_zero]
      · unfold landAux
        rw [if_neg h0]
        obtain ⟨m, rfl⟩ : ∃ m, n = m + 1 := ⟨n - 1, by omega⟩
        have hpj : (2:Nat) ^ (j + 1) * q = 2 * (2 ^ j * q) := by
          rw [Nat.pow_succ]; ring
        have hpn : (2:Nat) ^ (m + 1) = 2 * 2 ^ m := by rw [Nat.pow_succ]; ring
        have hpj2 : (2:Nat) ^ (j + 1) = 2 * 2 ^ j := by rw [Nat.pow_succ]; ring
        have hpj1 : (1:Nat) ≤ 2 ^ j := Nat.one_le_two_pow
        have ha2 : (2 ^ (j + 1) * q) % 2 = 0 := by omega
        have had : (2 ^ (j + 1) * q) / 2 = 2 ^ j * q := by omega
        have hmd : ((2:Nat) ^ (m + 1) - 2 ^ (j + 1)) / 2 = 2 ^ m - 2 ^ j := by
          omega
        have hf2 : (2:Nat) ^ (f + 1) = 2 * 2 ^ f := by rw [Nat.pow_succ]; ring
        rw [ha2, Nat.zero_mul, had, hmd,
          ih j m q (by omega) (by omega) (by omega)]
        omega

/-- `a & (2^12 - 2^j) = a` for a `2^j`-aligned 12-bit value. -/
theorem natAnd_align (j q : Nat) (hj : j ≤ 12) (hb : 2 ^ j * q < 4096) :
    natAnd (2 ^ j * q) (4096 - 2 ^ j) = 2 ^ j * q := by
  unfold natAnd
  have h12 : (4096:Nat) = 2 ^ 12 := by norm_num
  have hfe : 2 ^ j * q < 2 ^ (2 ^ j * q + 1) := by
    have h1 := Nat.lt_two_pow (2 ^ j * q)
    have h2 : (2:Nat) ^ (2 ^ j * q) ≤ 2 ^ (2 ^ j * q + 1) :=
      Nat.pow_le_pow_right (by norm_num) (by omega)
    omega
  rw [h12]
  exact landAux_align (2 ^ j * q + 1) j 12 q hj (by omega) hfe

/-- Closed form of the recurring mask expression `0xfff & ~(u - 1)`. -/
theorem mask12_closed (u : Nat) (hu : 1 ≤ u) :
    mask12 u = ((4095 - (u - 1) % 4096 : Nat) : Int) := by
  have hcast : ((u : Nat) : Int) - 1 = ((u - 1 : Nat) : Int) := by omega
  unfold mask12 pynot
  rw [hcast]
  unfold pyand
  rw [if_pos (by norm_num)]
  rw [if_neg (by
    have h0 : (0:Int) ≤ ((u - 1 : Nat) : Int) := Int.natCast_nonneg _
    omega)]
  rw [show -(-((u - 1 : Nat) : Int) - 1) - 1 = ((u - 1 : Nat) : Int) from by
    ring]
  rw [Int.toNat_natCast, show ((0xfff : Int)).toNat = 4095 from rfl,
    natAnd_xfff]

/-- The mask of a power-of-two unit count: `0xfff` with the low
`min k 12` bits cleared. -/
theorem mask12_pow (k : Nat) :
    mask12 (2 ^ k) = ((4096 - 2 ^ min k 12 : Nat) : Int) := by
  have h1 : (1:Nat) ≤ 2 ^ k := Nat.one_le_two_pow
  rw [mask12_closed _ h1]
  congr 1
  by_cases hk : k ≤ 12
  · rw [min_eq_left hk]
    have h2 : (2:Nat) ^ k ≤ 4096 := by
      calc (2:Nat) ^ k ≤ 2 ^ 12 := Nat.pow_le_pow_right (by norm_num) hk
        _ = 4096 := by norm_num
    rw [Nat.mod_eq_of_lt (by omega)]
    omega
  · rw [min_eq_right (by omega)]
    have h4 : (2:Nat) ^ k = 4096 * 2 ^ (k - 12) := by
      rw [show (4096:Nat) = 2 ^ 12 from by norm_num, ← pow_add]
      congr 1
      omega
    have h5 : (1:Nat) ≤ 2 ^ (k - 12) := Nat.one_le_two_pow
    have h6 : (2:Nat) ^ 12 = 4096 := by norm_num
    omega

/-- The mask of any power-of-two unit count is contiguous. -/
theorem contiguous_mask12_pow (k : Nat) :
    contiguousMask12 (mask12 (2 ^ k)) := by
  refine ⟨min k 12, Finset.mem_range.mpr (by omega), ?_⟩
  rw [mask12_pow k]
  have h2 : (2:Nat) ^ min k 12 ≤ 4096 := by
    calc (2:Nat) ^ min k 12 ≤ 2 ^ 12 :=
        Nat.pow_le_pow_right (by norm_num) (by omega)
      _ = 4096 := by norm_num
  rw [Nat.cast_sub h2]
  push_cast
  ring

/-- A `2^j`-aligned 12-bit base is aligned to the mask of `2^j` units. -/
theorem pyand_mask12_align (j q : Nat) (hj : j ≤ 12)
    (hb : 2 ^ j * q < 4096) :
    pyand ((2 ^ j * q : Nat) : Int) (pynot (mask12 (2 ^ j))) = 0 := by
  rw [mask12_pow j, min_eq_left hj]
  unfold pynot pyand
  rw [if_pos (Int.natCast_nonneg _)]
  rw [if_neg (by
    have h0 : (0:Int) ≤ ((4096 - 2 ^ j : Nat) : Int) := Int.natCast_nonneg _
    omega)]
  rw [show -(-((4096 - 2 ^ j : Nat) : Int) - 1) - 1
      = ((4096 - 2 ^ j : Nat) : Int) from by ring]
  rw [Int.toNat_natCast, Int.toNat_natCast, natAnd_align j q hj hb]
  simp

/-- The counterexample topology for the full-mask sites: a 1×6 grid of
three plain SLM tiles and three DDR-backed SLM tiles, 1024 kB each. -/
def sSlm3 : soc_in :=
  { rows := 1, cols := 6,
    topology := fun _ y =>
      if y < 3 then { ip_type := "slm" }
      else { ip_type := "slm", has_ddr := 1 },
    cpu_arch := "leon3", cache_en := 0, slm_kbytes := 1024,
    accelerator_types := [] }

def cfgSlm3 : soc_config := ((mkSocConfig sSlm3).toOption).getD {}

/-- C2 counterexample.  (a) With 3 memory controllers the per-controller
size is `int(0x400 / 3) = 341`, whose mask `0xfff & ~340 = 0xEAB` is
*not* of the contiguous high-bits-fixed/low-bits-free form, and the
second controller's base address `0x555` does not satisfy
`base & ~mask == 0` (it equals `0x154`).  (b) The same failure hits the
full-mask sites of `__init__`: with 3 SLM tiles of 1024 kB the total is
3072 kB and `slm_full_mask = 0xfff & ~2 = 0xFFD` is non-contiguous;
with 3 DDR-backed SLM tiles `slmddr_full_mask = 0xfff & ~1535 = 0xA00`
is non-contiguous. -/
theorem claim_C2_counterexample :
    (ddr_size_of 3 = 341 ∧
     ddr_mask_of 3 = 0xEAB ∧
     ¬contiguousMask12 (ddr_mask_of 3) ∧
     (ddr_haddr_list "leon3" 3).getD 1 0 = 0x555 ∧
     pyand ((ddr_haddr_list "leon3" 3).getD 1 0) (pynot (ddr_mask_of 3)) =
       0x154) ∧
    (mkSocConfig sSlm3 = Except.ok cfgSlm3 ∧
     cfgSlm3.nslm = 3 ∧ cfgSlm3.slm_kbytes = 1024 ∧
     cfgSlm3.slm_tot_kbytes = 3072 ∧
     cfgSlm3.slm_full_mask = 0xFFD ∧
     ¬contiguousMask12 cfgSlm3.slm_full_mask ∧
     cfgSlm3.nslmddr = 3 ∧
     cfgSlm3.slmddr_full_mask = 0xA00 ∧
     ¬contiguousMask12 cfgSlm3.slmddr_full_mask) :=
  ⟨⟨by decide, by decide, by decide, by decide, by decide⟩,
   ⟨rfl, by decide, by decide, by decide, by decide, by decide, by decide,
    by decide, by decide⟩⟩

/-- C2 (amended).  Every address mask of the partitioning is computed as
`0xfff & ~(units - 1)` and is contiguous exactly when its unit count is a
power of two (or the special all-free / low-capacity cases): (1) the
per-memory-controller masks are contiguous and every controller base is
aligned for every admissible count except 3 (whose quotient `0x400 / 3`
is not a power of two — see the counterexample); (2) the per-SLM-tile
mask is contiguous for a power-of-two tile capacity, and every SLM base
is aligned to it whenever the regions fit in the reserved 64 MB window;
(3) the SLM full mask is contiguous when the total capacity is
`1024 · 2^k` kB (non-power-of-two totals such as 3 × 1024 kB break it —
see the counterexample); (4) the SLM-DDR full mask is contiguous when
the DDR-backed SLM tile count is a power of two or zero. -/
theorem claim_C2 (s : soc_in) (cfg : soc_config)
    (hok : mkSocConfig s = Except.ok cfg) :
    (∀ arch, (arch = "leon3" ∨ arch = "ariane" ∨ arch = "ibex") →
      ∀ nmem ≤ NMEM_MAX, nmem ≠ 3 →
        contiguousMask12 (ddr_mask_of nmem) ∧
        ∀ i < nmem,
          pyand ((ddr_haddr_list arch nmem).getD i 0)
            (pynot (ddr_mask_of nmem)) = 0) ∧
    ((∃ k, cfg.slm_kbytes = 2 ^ k) →
      contiguousMask12 (slm_tile_mask cfg)) ∧
    ((∃ k, cfg.slm_kbytes = 2 ^ k) →
      cfg.slm_kbytes / 1024 * cfg.nslm ≤ 64 →
      ∀ i < cfg.nslm,
        pyand ((slm_haddr_list cfg).getD i 0)
          (pynot (slm_tile_mask cfg)) = 0) ∧
    ((∃ k, cfg.slm_tot_kbytes = 1024 * 2 ^ k) ∨ cfg.slm_tot_kbytes ≤ 1024 →
      contiguousMask12 cfg.slm_full_mask) ∧
    ((∃ k, cfg.nslmddr = 2 ^ k) ∨ cfg.nslmddr = 0 →
      contiguousMask12 cfg.slmddr_full_mask) := by
  obtain ⟨fin, -, hcfg⟩ := mkSocConfig_inv hok
  subst hcfg
  refine ⟨fun arch harch nmem hle h3 => ddr_mask_bases_ok arch harch nmem
    hle h3, ?_, ?_, ?_, ?_⟩
  · rintro ⟨k, hk⟩
    unfold slm_tile_mask
    by_cases hge : (assembleConfig s fin).slm_kbytes ≥ 1024
    · rw [if_pos hge, hk]
      have h10 : 10 ≤ k := by
        by_contra h
        rw [hk] at hge
        have : (2:Nat) ^ k < 1024 := by
          calc (2:Nat) ^ k ≤ 2 ^ 9 :=
              Nat.pow_le_pow_right (by norm_num) (by omega)
            _ < 1024 := by norm_num
        omega
      rw [show (1024:Nat) = 2 ^ 10 from by norm_num,
        Nat.pow_div h10 (by norm_num)]
      exact contiguous_mask12_pow (k - 10)
    · rw [if_neg hge]
      decide
  · rintro ⟨k, hk⟩ hwin i hi
    have hbase : (slm_haddr_list (assembleConfig s fin)).getD i 0
        = slm_base_addr (assembleConfig s fin)
          + i * ((assembleConfig s fin).slm_kbytes / 1024) := by
      unfold slm_haddr_list
      rw [List.getD_eq_getElem?_getD,
        haddr_accum_getElem _ _ _ i hi]
      rfl
    have hb64 : 64 ∣ slm_base_addr (assembleConfig s fin) ∧
        slm_base_addr (assembleConfig s fin) ≤ 2048 := by
      unfold slm_base_addr DDR_HADDR SLM_HADDR
      split_ifs <;> exact ⟨by norm_num, by norm_num⟩
    by_cases hge : (assembleConfig s fin).slm_kbytes ≥ 1024
    · have h10 : 10 ≤ k := by
        by_contra h
        rw [hk] at hge
        have : (2:Nat) ^ k < 1024 := by
          calc (2:Nat) ^ k ≤ 2 ^ 9 :=
              Nat.pow_le_pow_right (by norm_num) (by omega)
            _ < 1024 := by norm_num
        omega
      have hu : (assembleConfig s fin).slm_kbytes / 1024 = 2 ^ (k - 10) := by
        rw [hk, show (1024:Nat) = 2 ^ 10 from by norm_num,
          Nat.pow_div h10 (by norm_num)]
      have hns : 1 ≤ (assembleConfig s fin).nslm := by omega
      have hu64 : (2:Nat) ^ (k - 10) ≤ 64 := by
        calc (2:Nat) ^ (k - 10) = 2 ^ (k - 10) * 1 := by ring
          _ ≤ 2 ^ (k - 10) * (assembleConfig s fin).nslm :=
            Nat.mul_le_mul_left _ hns
          _ ≤ 64 := by rw [← hu]; exact hwin
      have hj6 : k - 10 ≤ 6 := by
        rw [show (64:Nat) = 2 ^ 6 from by norm_num] at hu64
        exact (Nat.pow_le_pow_iff_right (by norm_num)).mp hu64
      have hdvd : 2 ^ (k - 10) ∣ slm_base_addr (assembleConfig s fin) := by
        refine dvd_trans ?_ hb64.1
        rw [show (64:Nat) = 2 ^ 6 from by norm_num]
        exact pow_dvd_pow 2 hj6
      obtain ⟨c, hc⟩ := hdvd
      have hbeq : slm_base_addr (assembleConfig s fin)
          + i * ((assembleConfig s fin).slm_kbytes / 1024)
          = 2 ^ (k - 10) * (c + i) := by
        rw [hu, hc]
        ring
      have hui : 2 ^ (k - 10) * i ≤ 64 := by
        calc 2 ^ (k - 10) * i
            ≤ 2 ^ (k - 10) * (assembleConfig s fin).nslm :=
              Nat.mul_le_mul_left _ (by omega)
          _ ≤ 64 := by rw [← hu]; exact hwin
      have hblt : 2 ^ (k - 10) * (c + i) < 4096 := by
        have h1 : 2 ^ (k - 10) * c ≤ 2048 := by rw [← hc]; exact hb64.2
        have h2 := Nat.mul_add (2 ^ (k - 10)) c i
        omega
      have hmask : slm_tile_mask (assembleConfig s fin)
          = mask12 (2 ^ (k - 10)) := by
        unfold slm_tile_mask
        rw [if_pos hge, hu]
      rw [hbase, hbeq, hmask]
      exact pyand_mask12_align (k - 10) (c + i) (by omega) hblt
    · have hu0 : (assembleConfig s fin).slm_kbytes / 1024 = 0 :=
        Nat.div_eq_of_lt (by omega)
      have hmask : slm_tile_mask (assembleConfig s fin) = mask12 (2 ^ 0) := by
        unfold slm_tile_mask
        rw [if_neg hge]
        decide
      have hbeq : slm_base_addr (assembleConfig s fin) + i * 0
          = 2 ^ 0 * slm_base_addr (assembleConfig s fin) := by
        ring
      have hblt : 2 ^ 0 * slm_base_addr (assembleConfig s fin) < 4096 := by
        have h := hb64.2
        norm_num
        omega
      rw [hbase, hu0, hbeq, hmask]
      exact pyand_mask12_align 0 (slm_base_addr (assembleConfig s fin))
        (by norm_num) hblt
  · intro h
    have hfm : (assembleConfig s fin).slm_full_mask
        = if (assembleConfig s fin).slm_tot_kbytes > 1024
          then mask12 ((assembleConfig s fin).slm_tot_kbytes / 1024)
          else 0xfff := rfl
    rcases h with ⟨k, hk⟩ | hle
    · rw [hfm]
      by_cases hgt : (assembleConfig s fin).slm_tot_kbytes > 1024
      · rw [if_pos hgt, hk]
        have hdiv : (1024:Nat) * 2 ^ k / 1024 = 2 ^ k :=
          Nat.mul_div_cancel_left _ (by norm_num)
        rw [hdiv]
        exact contiguous_mask12_pow k
      · rw [if_neg hgt]
        decide
    · rw [hfm, if_neg (by omega)]
      decide
  · intro h
    have hdm : (assembleConfig s fin).slmddr_full_mask
        = mask12 ((assembleConfig s fin).slmddr_tot_kbytes / 1024) := rfl
    have hdt : (assembleConfig s fin).slmddr_tot_kbytes
        = if (assembleConfig s fin).nslmddr ≠ 0
          then 512 * 1024 * (assembleConfig s fin).nslmddr else 0 := rfl
    rcases h with ⟨k, hk⟩ | h0
    · rw [hdm, hdt, hk]
      have h1 : (1:Nat) ≤ 2 ^ k := Nat.one_le_two_pow
      rw [if_pos (by omega)]
      have hnum : (512:Nat) * 1024 * 2 ^ k = 1024 * 2 ^ (9 + k) := by
        rw [pow_add, show (2:Nat) ^ 9 = 512 from by norm_num]
        ring
      have hdiv : 512 * 1024 * 2 ^ k / 1024 = 2 ^ (9 + k) := by
        rw [hnum]
        exact Nat.mul_div_cancel_left _ (by norm_num)
      rw [hdiv]
      exact contiguous_mask12_pow (9 + k)
    · rw [hdm, hdt, if_neg (by simp [h0])]
      decide

/-- The witness topology for C2: five memory controllers and two SLM
tiles of 2048 kB under `leon3`. -/
def sMemSlm : soc_in :=
  { rows := 1, cols := 7,
    topology := fun _ y =>
      if y < 5 then { ip_type := "mem" } else { ip_type := "slm" },
    cpu_arch := "leon3", cache_en := 0, slm_kbytes := 2048,
    accelerator_types := [] }

def cfgMemSlm : soc_config := ((mkSocConfig sMemSlm).toOption).getD {}

/-- C2 witness: the amended statement instantiated on `sMemSlm` — DDR
mask and base of controller 2 with 5 controllers; SLM per-tile mask and
base of tile 1; the two full masks. -/
theorem claim_C2_witness :
    contiguousMask12 (ddr_mask_of 5) ∧
    pyand ((ddr_haddr_list "leon3" 5).getD 2 0) (pynot (ddr_mask_of 5))
      = 0 ∧
    contiguousMask12 (slm_tile_mask cfgMemSlm) ∧
    pyand ((slm_haddr_list cfgMemSlm).getD 1 0)
      (pynot (slm_tile_mask cfgMemSlm)) = 0 ∧
    contiguousMask12 cfgMemSlm.slm_full_mask ∧
    contiguousMask12 cfgMemSlm.slmddr_full_mask :=
  ⟨((claim_C2 sMemSlm cfgMemSlm rfl).1 "leon3" (Or.inl rfl) 5 (by decide)
      (by decide)).1,
   ((claim_C2 sMemSlm cfgMemSlm rfl).1 "leon3" (Or.inl rfl) 5 (by decide)
      (by decide)).2 2 (by decide),
   (claim_C2 sMemSlm cfgMemSlm rfl).2.1 ⟨11, by decide⟩,
   (claim_C2 sMemSlm cfgMemSlm rfl).2.2.1 ⟨11, by decide⟩ (by decide) 1
     (by decide),
   (claim_C2 sMemSlm cfgMemSlm rfl).2.2.2.1 (Or.inl ⟨2, by decide⟩),
   (claim_C2 sMemSlm cfgMemSlm rfl).2.2.2.2 (Or.inr (by decide))⟩

/-- C5.  Per-memory-controller region sizes: the plain `DDR_SIZE / nmem`
divisor for `0 < nmem ≤ 4`, the fixed `DDR_SIZE / 8` fallback for
`nmem > 4` (in particular 5 controllers get `DDR_SIZE / 8`, not
`DDR_SIZE / 5`), the full window for `nmem = 0`; and the `i`-th
controller's base address is the architecture's DDR base plus `i` times
that size. -/
theorem claim_C5 (arch : String) (nmem i : Nat) (hi : i < nmem) :
    (nmem = 0 → ddr_size_of nmem = DDR_SIZE) ∧
    (0 < nmem → nmem ≤ 4 → ddr_size_of nmem = DDR_SIZE / nmem) ∧
    (4 < nmem → ddr_size_of nmem = DDR_SIZE / 8) ∧
    (ddr_haddr_list arch nmem)[i]? =
      some (DDR_HADDR arch + i * ddr_size_of nmem) := by
  refine ⟨?_, ?_, ?_, ?_⟩
  · intro h; simp [ddr_size_of, h]
  · intro h1 h2; simp [ddr_size_of, Nat.pos_iff_ne_zero.mp h1, h1]; omega
  · intro h; have : nmem > 0 := by omega
    simp [ddr_size_of, this, h]
  · exact haddr_accum_getElem _ nmem (DDR_HADDR arch) i hi

/-- C5 witness: 5 controllers on `ariane`; controller 3's base address is
`0x800 + 3 * 0x80` and the size is the `>4` fallback `0x80`. -/
theorem claim_C5_witness :
    3 < 5 ∧
    (4 < 5 → ddr_size_of 5 = DDR_SIZE / 8) ∧
    (ddr_haddr_list "ariane" 5)[3]? =
      some (DDR_HADDR "ariane" + 3 * ddr_size_of 5) :=
  ⟨by decide, (claim_C5 "ariane" 5 3 (by decide)).2.2.1,
   (claim_C5 "ariane" 5 3 (by decide)).2.2.2⟩

/-! ## Claims C9 and C10: SLM-as-main-memory fallback; DVFS never
allocated -/

/-- C9.  A topology with zero memory-controller tiles resolves without any
capacity error, and the SLM base address is replaced by the
architecture-specific DDR base (`SLM_HADDR = DDR_HADDR[cpu_arch]`, lines
877-881), with the DRAM size override emitted from the total SLM capacity
(lines 2267-2274). -/
theorem claim_C9 (s : soc_in) (hwf : WFacc s)
    (hcpu : get_cpu_num s ≤ NCPU_MAX) (hmem0 : get_mem_num s = 0) :
    ∃ cfg, mkSocConfig s = Except.ok cfg ∧ cfg.nmem = 0 ∧
      slm_base_addr cfg = DDR_HADDR cfg.cpu_arch ∧
      override_dram_size cfg = some (cfg.slm_tot_kbytes * 1024) := by
  obtain ⟨fin, hrun, hInv, hlen, hok⟩ := mkSocConfig_total s hwf
    (fun _ => ⟨hcpu, by rw [hmem0]; exact Nat.zero_le _⟩)
  refine ⟨assembleConfig s fin, hok, ?_, ?_, ?_⟩
  · simp [assembleConfig, hmem0]
  · simp [slm_base_addr, assembleConfig, hmem0]
  · simp [override_dram_size, assembleConfig, hmem0]

/-- A 2×2 topology with one CPU tile and no memory tile. -/
def sNoMem : soc_in :=
  { rows := 2, cols := 2,
    topology := fun x y =>
      if x = 0 ∧ y = 0 then { ip_type := "cpu" }
      else if x = 1 ∧ y = 1 then { ip_type := "IO" }
      else {},
    cpu_arch := "ariane", cache_en := 1, slm_kbytes := 1024,
    accelerator_types := [] }

/-- C9 witness: the zero-memory topology `sNoMem` resolves with the SLM
base moved to the `ariane` DDR base. -/
theorem claim_C9_witness :
    WFacc sNoMem ∧ get_cpu_num sNoMem ≤ NCPU_MAX ∧ get_mem_num sNoMem = 0 ∧
    (∃ cfg, mkSocConfig sNoMem = Except.ok cfg ∧ cfg.nmem = 0 ∧
      slm_base_addr cfg = DDR_HADDR cfg.cpu_arch ∧
      override_dram_size cfg = some (cfg.slm_tot_kbytes * 1024)) :=
  ⟨⟨by decide, by decide, by decide, by decide⟩, by decide, by decide,
    claim_C9 sNoMem ⟨by decide, by decide, by decide, by decide⟩ (by decide)
      (by decide)⟩

/-- C10.  Resolution never allocates a DVFS descriptor: `ndvfs` stays 0,
`dvfs_ctrls` stays empty, the `fixed_apbo_pconfig` DVFS loop writes
nothing, every tile's DVFS descriptor keeps the `-1` sentinel, and the
per-tile has-token-DVFS flag is only echoed into the `tile_has_tdvfs`
table. -/
theorem claim_C10 (s : soc_in) (hwf : WFacc s)
    (hcap : cohOf s = true →
      get_cpu_num s ≤ NCPU_MAX ∧ get_mem_num s ≤ NMEM_MAX)
    (cfg : soc_config) (hok : mkSocConfig s = Except.ok cfg) :
    cfg.ndvfs = 0 ∧ cfg.dvfs_ctrls = [] ∧ dvfs_apbo_entries cfg = [] ∧
    (∀ t ∈ cfg.tiles, t.dvfs.id = -1 ∧ t.dvfs.idx = -1) ∧
    (∀ i t, cfg.tiles[i]? = some t →
      t.has_tdvfs = (cellAt s i).has_tdvfs) := by
  obtain ⟨fin, hcfg, hInv, hlen⟩ := mkSocConfig_ok_inv hwf hcap hok
  subst hcfg
  refine ⟨rfl, rfl, ?_, ?_, ?_⟩
  · simp [dvfs_apbo_entries, assembleConfig]
  · intro t ht
    have h := hInv.hdvfs t (by simpa [assembleConfig] using ht)
    rw [h]
    exact ⟨rfl, rfl⟩
  · intro i t hit
    have h := hInv.hpos i t (by simpa [assembleConfig] using hit)
    exact h.2.2

/-- Scenario A topology: 4×4 grid, one CPU tile at (0,0) with the
token-DVFS flag set, one memory tile at (3,3), the I/O tile at (2,2),
coherence enabled. -/
def scenarioA : soc_in :=
  { rows := 4, cols := 4,
    topology := fun x y =>
      if x = 0 ∧ y = 0 then { ip_type := "cpu", has_tdvfs := 1 }
      else if x = 3 ∧ y = 3 then { ip_type := "mem" }
      else if x = 2 ∧ y = 2 then { ip_type := "IO" }
      else {},
    cpu_arch := "leon3", cache_en := 1, slm_kbytes := 0,
    accelerator_types := [] }

def cfgScenarioA : soc_config :=
  ((mkSocConfig scenarioA).toOption).getD {}

/-- C10 witness: Scenario A instantiation — no DVFS descriptor exists and
the flag of tile 0 is echoed. -/
theorem claim_C10_witness :
    (cfgScenarioA.ndvfs = 0 ∧ cfgScenarioA.dvfs_ctrls = [] ∧
      dvfs_apbo_entries cfgScenarioA = [] ∧
      (∀ t ∈ cfgScenarioA.tiles, t.dvfs.id = -1 ∧ t.dvfs.idx = -1) ∧
      (∀ i t, cfgScenarioA.tiles[i]? = some t →
        t.has_tdvfs = (cellAt scenarioA i).has_tdvfs)) :=
  claim_C10 scenarioA ⟨by decide, by decide, by decide, by decide⟩
    (by decide) cfgScenarioA rfl

/-! ## Claims C4 and C6: CPU/LLC identifiers and bands; accelerator
interrupt lines -/

theorem L2_PINDEX_get {j : Nat} (h : j < NCPU_MAX) :
    L2_CACHE_PINDEX[j]? = some (8 + j) := by
  simp [L2_CACHE_PINDEX, List.getElem?_map, List.getElem?_range, h]

theorem LLC_PINDEX_get {j : Nat} (h : j < NMEM_MAX) :
    LLC_CACHE_PINDEX[j]? = some (24 + j) := by
  simp [LLC_CACHE_PINDEX, List.getElem?_map, List.getElem?_range, h]

/-- A category id of a tile in the walk lies below the category counter. -/
theorem catinv_id_bound {r : String} {f : tile_info → Int} {cnt : Nat}
    {tiles : List tile_info} (h : CatInv r f cnt tiles) {t : tile_info}
    (ht : t ∈ tiles) (htype : t.type = r) :
    0 ≤ f t ∧ f t < (cnt : Int) := by
  apply mem_natRange
  rw [← h.2]
  exact List.mem_map_of_mem _ (List.mem_filter.mpr ⟨ht, by simp [htype]⟩)

/-- C4.  With coherence enabled, CPU identifiers are the scan-order
sequence `0..ncpu-1`; each CPU tile's private cache has the CPU identifier
and the CPU band bus index `L2_CACHE_PINDEX[cpu_id] = 8 + cpu_id`; each
memory tile's LLC split has the memory identifier and the LLC band bus
index `LLC_CACHE_PINDEX[llc_id] = 24 + llc_id`. -/
theorem claim_C4 (s : soc_in) (hwf : WFacc s) (cfg : soc_config)
    (hok : mkSocConfig s = Except.ok cfg)
    (hcap16 : get_cpu_num s ≤ NCPU_MAX ∧ get_mem_num s ≤ NMEM_MAX)
    (hcoh : cfg.coherence = true) :
    ((cfg.tiles.filter (fun t => t.type == "cpu")).map (fun t => t.cpu_id)
        = natRange cfg.ncpu) ∧
    (∀ t ∈ cfg.tiles, t.type = "cpu" →
      ∃ j : Nat, t.cpu_id = (j : Int) ∧ t.l2.id = t.cpu_id ∧
        L2_CACHE_PINDEX[j]? = some (8 + j) ∧
        t.l2.idx = ((8 + j : Nat) : Int)) ∧
    (∀ t ∈ cfg.tiles, t.type = "mem" →
      ∃ j : Nat, t.mem_id = (j : Int) ∧ t.llc.id = t.mem_id ∧
        LLC_CACHE_PINDEX[j]? = some (24 + j) ∧
        t.llc.idx = ((24 + j : Nat) : Int)) := by
  obtain ⟨fin, hcfg, hInv, hlen⟩ :=
    mkSocConfig_ok_inv hwf (fun _ => hcap16) hok
  subst hcfg
  have hcoh2 : cohOf s = true := by simpa [assembleConfig] using hcoh
  have hfc : fin.cpu_id = get_cpu_num s := final_cpu_count hwf.1 hInv hlen
  have hfm : fin.mem_id = get_mem_num s := final_mem_count hwf.2.2.1 hInv hlen
  refine ⟨?_, ?_, ?_⟩
  · show (fin.tiles.filter (fun t => t.type == "cpu")).map (fun t => t.cpu_id)
      = natRange (get_cpu_num s)
    rw [hInv.ccpu.2, hfc]
  · intro t ht htype
    replace ht : t ∈ fin.tiles := by simpa [assembleConfig] using ht
    obtain ⟨hge, hlt⟩ := catinv_id_bound hInv.ccpu ht htype
    obtain ⟨hid, hidx⟩ := hInv.hcpul2 t ht htype hcoh2
    refine ⟨t.cpu_id.toNat, (Int.toNat_of_nonneg hge).symm, hid, ?_, ?_⟩
    · exact L2_PINDEX_get (by omega)
    · rw [hidx]
      push_cast [Int.toNat_of_nonneg hge]
      ring
  · intro t ht htype
    replace ht : t ∈ fin.tiles := by simpa [assembleConfig] using ht
    obtain ⟨hge, hlt⟩ := catinv_id_bound hInv.cmem ht htype
    obtain ⟨hid, hidx⟩ := hInv.hmemllc t ht htype hcoh2
    refine ⟨t.mem_id.toNat, (Int.toNat_of_nonneg hge).symm, hid, ?_, ?_⟩
    · exact LLC_PINDEX_get (by omega)
    · rw [hidx]
      push_cast [Int.toNat_of_nonneg hge]
      ring

/-- C4 witness: Scenario A — the single CPU tile gets identifier 0, cache
id 0, band index 8; the memory tile gets LLC id 0, band index 24. -/
theorem claim_C4_witness :
    (cfgScenarioA.tiles.filter (fun t => t.type == "cpu")).map
        (fun t => t.cpu_id) = natRange cfgScenarioA.ncpu ∧
    (∀ t ∈ cfgScenarioA.tiles, t.type = "cpu" →
      ∃ j : Nat, t.cpu_id = (j : Int) ∧ t.l2.id = t.cpu_id ∧
        L2_CACHE_PINDEX[j]? = some (8 + j) ∧
        t.l2.idx = ((8 + j : Nat) : Int)) :=
  ⟨(claim_C4 scenarioA ⟨by decide, by decide, by decide, by decide⟩
      cfgScenarioA rfl (by decide) (by decide)).1,
   (claim_C4 scenarioA ⟨by decide, by decide, by decide, by decide⟩
      cfgScenarioA rfl (by decide) (by decide)).2.1⟩

theorem count_ip_acc (s : soc_in) (n : Nat) :
    (List.range' 0 n).countP
        (fun u => roleOf s.accelerator_types (cellAt s u) == "acc")
      = (List.range' 0 n).countP
        (fun u => s.accelerator_types.contains (cellAt s u).ip_type) :=
  List.countP_congr (fun u _ => by simp [roleOf_acc])

theorem final_acc_count {s : soc_in} {coh : Bool} {st : walk_state}
    (hInv : WalkInv s coh st) (hlen : st.tiles.length = ntilesOf s) :
    st.acc_id = get_acc_num s := by
  have h := counter_eq_role_count "acc" (fun u => u.acc.id)
    hInv.cacc hInv.hrole
  rw [hlen, count_ip_acc s] at h
  unfold get_acc_num
  rw [List.range_eq_range']
  exact h

/-- C6.  Accelerator identifiers are the scan-order sequence `0..nacc-1`;
the accelerator with identifier `k` receives interrupt line 3 on any
non-RISC-V architecture (every accelerator shares line 3 under `leon3`),
and on `ariane`/`ibex` receives `5 + k` when that is at most 10 and
`7 + k` otherwise, so lines 11 and 12 — reserved to Ethernet — are never
assigned. -/
theorem claim_C6 (s : soc_in) (hwf : WFacc s) (cfg : soc_config)
    (hok : mkSocConfig s = Except.ok cfg)
    (hcap : cohOf s = true →
      get_cpu_num s ≤ NCPU_MAX ∧ get_mem_num s ≤ NMEM_MAX) :
    ((cfg.tiles.filter (fun t => t.type == "acc")).map (fun t => t.acc.id)
        = natRange cfg.nacc) ∧
    (∀ t ∈ cfg.tiles, t.type = "acc" →
      ∃ k : Nat, t.acc.id = (k : Int) ∧
        (¬(s.cpu_arch = "ariane" ∨ s.cpu_arch = "ibex") →
          t.acc.irq = 3) ∧
        ((s.cpu_arch = "ariane" ∨ s.cpu_arch = "ibex") →
          t.acc.irq = (if k + 5 ≤ 10 then ((k + 5 : Nat) : Int)
            else ((k + 7 : Nat) : Int)) ∧
          t.acc.irq ≠ 11 ∧ t.acc.irq ≠ 12)) := by
  obtain ⟨fin, hcfg, hInv, hlen⟩ := mkSocConfig_ok_inv hwf hcap hok
  subst hcfg
  have hfa : fin.acc_id = get_acc_num s := final_acc_count hInv hlen
  refine ⟨?_, ?_⟩
  · show (fin.tiles.filter (fun t => t.type == "acc")).map (fun t => t.acc.id)
      = natRange (get_acc_num s)
    rw [hInv.cacc.2, hfa]
  · intro t ht htype
    replace ht : t ∈ fin.tiles := by simpa [assembleConfig] using ht
    obtain ⟨k, hid, hirq, hidx⟩ := hInv.hirq t ht htype
    refine ⟨k, hid, ?_, ?_⟩
    · intro harch
      rw [hirq]
      simp [accIrqOf, harch]
    · intro harch
      rw [hirq]
      unfold accIrqOf
      rw [if_pos harch]
      by_cases hk : k + 5 ≤ 10
      · rw [if_pos hk, if_pos hk]
        refine ⟨rfl, ?_, ?_⟩ <;> omega
      · rw [if_neg hk, if_neg hk]
        refine ⟨rfl, ?_, ?_⟩ <;> omega

/-- Scenario B topology: a 1×3 grid of three platform-native accelerator
tiles under `ariane`. -/
def scenarioB : soc_in :=
  { rows := 1, cols := 3,
    topology := fun _ _ => { ip_type := "ACCX", vendor := "sld" },
    cpu_arch := "ariane", cache_en := 1, slm_kbytes := 0,
    accelerator_types := ["ACCX"] }

def cfgScenarioB : soc_config :=
  ((mkSocConfig scenarioB).toOption).getD {}

/-- C6 witness: Scenario B — accelerator ids `0,1,2` and interrupt lines
`5,6,7` under `ariane`. -/
theorem claim_C6_witness :
    ((cfgScenarioB.tiles.filter (fun t => t.type == "acc")).map
        (fun t => t.acc.id) = natRange cfgScenarioB.nacc) ∧
    (∀ t ∈ cfgScenarioB.tiles, t.type = "acc" →
      ∃ k : Nat, t.acc.id = (k : Int) ∧
        (¬(scenarioB.cpu_arch = "ariane" ∨ scenarioB.cpu_arch = "ibex") →
          t.acc.irq = 3) ∧
        ((scenarioB.cpu_arch = "ariane" ∨ scenarioB.cpu_arch = "ibex") →
          t.acc.irq = (if k + 5 ≤ 10 then ((k + 5 : Nat) : Int)
            else ((k + 7 : Nat) : Int)) ∧
          t.acc.irq ≠ 11 ∧ t.acc.irq ≠ 12)) :=
  claim_C6 scenarioB ⟨by decide, by decide, by decide, by decide⟩
    cfgScenarioB rfl (by decide)

/-! ## Claim C3: cache descriptor identifiers and bus-index bands -/

/-- A 1×2 topology: one CPU tile and one coherent accelerator tile with
the private-cache flag set. -/
def sAccL2 : soc_in :=
  { rows := 1, cols := 2,
    topology := fun _ y =>
      if y = 0 then { ip_type := "cpu" }
      else { ip_type := "ACCX", has_l2 := 1, vendor := "sld" },
    cpu_arch := "leon3", cache_en := 1, slm_kbytes := 0,
    accelerator_types := ["ACCX"] }

def cfgAccL2 : soc_config := ((mkSocConfig sAccL2).toOption).getD {}

/-- C3 counterexample.  The coherent accelerator tile with the
private-cache flag gets a cache descriptor whose identifier continues
after the last CPU identifier (id = 1 = ncpu), but its bus index is left
at the `-1` sentinel: lines 395-401 never assign `l2.idx` for accelerator
caches (and line 1482 explicitly filters the `-1` out), contradicting the
claim that every allocated descriptor carries a band bus index. -/
theorem claim_C3_counterexample :
    mkSocConfig sAccL2 = Except.ok cfgAccL2 ∧
    cfgAccL2.coherence = true ∧
    (cfgAccL2.tiles.getD 1 {}).type = "acc" ∧
    (cfgAccL2.tiles.getD 1 {}).has_l2 = 1 ∧
    (cfgAccL2.tiles.getD 1 {}).l2.id = 1 ∧
    cfgAccL2.ncpu = 1 ∧
    (cfgAccL2.tiles.getD 1 {}).l2.idx = -1 :=
  ⟨rfl, by decide, by decide, by decide, by decide, by decide, by decide⟩

/-- C3 (amended).  With coherence on: every CPU private cache carries a
bus index from the CPU band (`8 + cpu_id`, within `[8, 24)`), every LLC
split a bus index from the LLC band (`24 + mem_id`, within `[24, 40)`);
the private-cache descriptor of a coherent accelerator tile with the
private-cache flag has identifier continuing after the last CPU
identifier — CPU and accelerator caches share the contiguous identifier
space `0..nl2-1`, CPUs first — but its bus index is left at the `-1`
sentinel instead of a band index. -/
theorem claim_C3 (s : soc_in) (hwf : WFacc s) (cfg : soc_config)
    (hok : mkSocConfig s = Except.ok cfg)
    (hcap16 : get_cpu_num s ≤ NCPU_MAX ∧ get_mem_num s ≤ NMEM_MAX)
    (hcoh : cfg.coherence = true) :
    (∀ t ∈ cfg.tiles, t.type = "cpu" →
      8 ≤ t.l2.idx ∧ t.l2.idx < 24 ∧ t.l2.idx = t.cpu_id + 8 ∧
        t.l2.id = t.cpu_id) ∧
    (∀ t ∈ cfg.tiles, t.type = "mem" →
      24 ≤ t.llc.idx ∧ t.llc.idx < 40 ∧ t.llc.idx = t.mem_id + 24) ∧
    (∀ t ∈ cfg.tiles, t.type = "acc" → t.has_l2 = 1 →
      t.l2.idx = -1 ∧ (cfg.ncpu : Int) ≤ t.l2.id ∧
        t.l2.id < (cfg.nl2 : Int)) ∧
    ((cfg.tiles.filter (fun t => t.type == "cpu")).map (fun t => t.l2.id)
        = natRange cfg.ncpu) ∧
    ((cfg.tiles.filter (fun t => t.type == "acc" && t.has_l2 == 1)).map
        (fun t => t.l2.id)
      = natRangeFrom cfg.ncpu (cfg.nl2 - cfg.ncpu)) ∧
    cfg.ncpu ≤ cfg.nl2 := by
  obtain ⟨fin, hcfg, hInv, hlen⟩ :=
    mkSocConfig_ok_inv hwf (fun _ => hcap16) hok
  subst hcfg
  have hcoh2 : cohOf s = true := by simpa [assembleConfig] using hcoh
  have hfc : fin.cpu_id = get_cpu_num s := final_cpu_count hwf.1 hInv hlen
  have hfm : fin.mem_id = get_mem_num s := final_mem_count hwf.2.2.1 hInv hlen
  have hge := hInv.hal2
  have hnl2f := hInv.hnl2 hcoh2
  refine ⟨?_, ?_, ?_, ?_, ?_, ?_⟩
  · intro t ht htype
    replace ht : t ∈ fin.tiles := by simpa [assembleConfig] using ht
    obtain ⟨hlo, hhi⟩ := catinv_id_bound hInv.ccpu ht htype
    obtain ⟨hid, hidx⟩ := hInv.hcpul2 t ht htype hcoh2
    have hcap := hcap16.1
    refine ⟨by omega, ?_, hidx, hid⟩
    rw [hidx]
    have : t.cpu_id < ((NCPU_MAX : Nat) : Int) := by
      calc t.cpu_id < (fin.cpu_id : Int) := hhi
        _ ≤ ((NCPU_MAX : Nat) : Int) := by exact_mod_cast hfc ▸ hcap
    simp only [NCPU_MAX] at this
    omega
  · intro t ht htype
    replace ht : t ∈ fin.tiles := by simpa [assembleConfig] using ht
    obtain ⟨hlo, hhi⟩ := catinv_id_bound hInv.cmem ht htype
    obtain ⟨hid, hidx⟩ := hInv.hmemllc t ht htype hcoh2
    have hcap := hcap16.2
    refine ⟨by omega, ?_, hidx⟩
    rw [hidx]
    have : t.mem_id < ((NMEM_MAX : Nat) : Int) := by
      calc t.mem_id < (fin.mem_id : Int) := hhi
        _ ≤ ((NMEM_MAX : Nat) : Int) := by exact_mod_cast hfm ▸ hcap
    simp only [NMEM_MAX] at this
    omega
  · intro t ht htype hl2flag
    replace ht : t ∈ fin.tiles := by simpa [assembleConfig] using ht
    have hidx := hInv.haccl2 t ht htype hcoh2 hl2flag
    have hmem : t.l2.id ∈ natRangeFrom (get_cpu_num s)
        (fin.acc_l2_id - get_cpu_num s) := by
      rw [← hInv.sl2acc hcoh2]
      refine List.mem_map_of_mem _ (List.mem_filter.mpr ⟨ht, ?_⟩)
      simp [htype, hl2flag]
    obtain ⟨hlo, hhi⟩ := mem_natRangeFrom hmem
    refine ⟨hidx, ?_, ?_⟩
    · show ((get_cpu_num s : Nat) : Int) ≤ t.l2.id
      exact hlo
    · show t.l2.id < ((fin.nl2 : Nat) : Int)
      have : get_cpu_num s + (fin.acc_l2_id - get_cpu_num s) = fin.nl2 := by
        omega
      rw [← this]
      exact_mod_cast hhi
  · show (fin.tiles.filter (fun t => t.type == "cpu")).map (fun t => t.l2.id)
      = natRange (get_cpu_num s)
    have hmc : (fin.tiles.filter (fun t => t.type == "cpu")).map
        (fun t => t.l2.id)
        = (fin.tiles.filter (fun t => t.type == "cpu")).map
          (fun t => t.cpu_id) := by
      apply List.map_congr_left
      intro t ht
      have hmf := List.mem_filter.mp ht
      exact (hInv.hcpul2 t hmf.1 (by simpa using hmf.2) hcoh2).1
    rw [hmc, hInv.ccpu.2, hfc]
  · show (fin.tiles.filter (fun t => t.type == "acc" && t.has_l2 == 1)).map
        (fun t => t.l2.id)
      = natRangeFrom (get_cpu_num s) (fin.nl2 - get_cpu_num s)
    rw [hInv.sl2acc hcoh2]
    congr 1
    omega
  · show get_cpu_num s ≤ fin.nl2
    omega

/-! ## Cross-reference table machinery (for claim C7) -/

theorem upd_fold_snoc {κ ν : Type} [DecidableEq κ] (ws : List (κ × ν))
    (w : κ × ν) (base : κ → ν) :
    upd_fold (ws ++ [w]) base
      = Function.update (upd_fold ws base) w.1 w.2 := by
  unfold upd_fold
  rw [List.foldl_append]
  rfl

/-- The table built by sequential overwrites returns `v` at key `k`
whenever `(k, v)` was written and every write at key `k` wrote `v`. -/
theorem upd_fold_mem_unique {κ ν : Type} [DecidableEq κ]
    {writes : List (κ × ν)} {base : κ → ν} {k : κ} {v : ν}
    (hmem : (k, v) ∈ writes)
    (huniq : ∀ v2, (k, v2) ∈ writes → v2 = v) :
    upd_fold writes base k = v := by
  induction writes using List.reverseRecOn generalizing base with
  | nil => cases hmem
  | append_singleton ws w ih =>
    rw [upd_fold_snoc]
    by_cases hk : w.1 = k
    · rw [hk, Function.update_same]
      exact huniq w.2 (by rw [← hk]; simp)
    · rw [Function.update_noteq (fun h => hk h.symm)]
      have hmem2 : (k, v) ∈ ws := by
        rcases List.mem_append.mp hmem with h | h
        · exact h
        · exfalso
          apply hk
          cases List.mem_singleton.mp h
          rfl
      exact ih hmem2 (fun v2 h2 => huniq v2 (List.mem_append_left _ h2))

/-- Characterization of the writes of an id → tile table. -/
theorem xrefWrites_mem_iff (p : tile_info → Bool) (f : tile_info → Int) :
    ∀ (ts : List tile_info) (j : Nat) (k : Int) (v : Nat),
      ((k, v) ∈ xrefWrites p f j ts ↔
        ∃ i t, ts[i]? = some t ∧ p t ∧ k = f t ∧ v = j + i) := by
  intro ts
  induction ts with
  | nil => intro j k v; simp [xrefWrites]
  | cons t ts ih =>
    intro j k v
    constructor
    · intro h
      rw [show xrefWrites p f j (t :: ts)
          = (if p t then [(f t, j)] else []) ++ xrefWrites p f (j + 1) ts
          from rfl] at h
      rcases List.mem_append.mp h with h1 | h1
      · by_cases hp : p t
        · rw [if_pos hp] at h1
          cases List.mem_singleton.mp h1
          exact ⟨0, t, by simp, hp, rfl, by omega⟩
        · rw [if_neg hp] at h1
          cases h1
      · obtain ⟨i, u, hu, hpu, hk, hv⟩ := (ih (j + 1) k v).mp h1
        exact ⟨i + 1, u, by simpa using hu, hpu, hk, by omega⟩
    · rintro ⟨i, u, hu, hpu, rfl, rfl⟩
      show _ ∈ (if p t then [(f t, j)] else []) ++ xrefWrites p f (j + 1) ts
      cases i with
      | zero =>
        simp only [List.getElem?_cons_zero] at hu
        cases hu
        exact List.mem_append_left _ (by simp [hpu])
      | succ m =>
        refine List.mem_append_right _ ?_
        have := (ih (j + 1) (f u) (j + 1 + m)).mpr
          ⟨m, u, by simpa using hu, hpu, rfl, rfl⟩
        have harith : j + (m + 1) = j + 1 + m := by omega
        rw [harith]
        exact this

/-- Characterization of the writes of a tile → id table. -/
theorem idWrites_mem_iff (f : tile_info → Int) :
    ∀ (ts : List tile_info) (j : Nat) (k : Nat) (v : Int),
      ((k, v) ∈ idWrites f j ts ↔
        ∃ i t, ts[i]? = some t ∧ f t ≠ -1 ∧ k = j + i ∧ v = f t) := by
  intro ts
  induction ts with
  | nil => intro j k v; simp [idWrites]
  | cons t ts ih =>
    intro j k v
    constructor
    · intro h
      rw [show idWrites f j (t :: ts)
          = (if f t ≠ -1 then [(j, f t)] else []) ++ idWrites f (j + 1) ts
          from rfl] at h
      rcases List.mem_append.mp h with h1 | h1
      · by_cases hp : f t ≠ -1
        · rw [if_pos hp] at h1
          cases List.mem_singleton.mp h1
          exact ⟨0, t, by simp, hp, by omega, rfl⟩
        · rw [if_neg hp] at h1
          cases h1
      · obtain ⟨i, u, hu, hpu, hk, hv⟩ := (ih (j + 1) k v).mp h1
        exact ⟨i + 1, u, by simpa using hu, hpu, by omega, hv⟩
    · rintro ⟨i, u, hu, hpu, rfl, rfl⟩
      show _ ∈ (if f t ≠ -1 then [(j, f t)] else []) ++ idWrites f (j + 1) ts
      cases i with
      | zero =>
        simp only [List.getElem?_cons_zero] at hu
        cases hu
        exact List.mem_append_left _ (by simp [hpu])
      | succ m =>
        refine List.mem_append_right _ ?_
        have := (ih (j + 1) (j + 1 + m) (f u)).mpr
          ⟨m, u, by simpa using hu, hpu, rfl, rfl⟩
        have harith : j + (m + 1) = j + 1 + m := by omega
        rw [harith]
        exact this

/-- Index-level injectivity of an id assignment follows from the
freshness (`Nodup`) of the filtered id sequence. -/
theorem nodup_filtmap_inj {p : tile_info → Bool} {f : tile_info → Int} :
    ∀ (l : List tile_info), ((l.filter p).map f).Nodup →
      ∀ (i j : Nat) (ti tj : tile_info), l[i]? = some ti →
        l[j]? = some tj → p ti → p tj → f ti = f tj → i = j := by
  intro l
  induction l with
  | nil => intro _ i j ti tj hti; simp at hti
  | cons t ts ih =>
    intro hnd i j ti tj hti htj hpi hpj hf
    have hmemf : ∀ (k : Nat) (u : tile_info), ts[k]? = some u → p u →
        f u ∈ (ts.filter p).map f := by
      intro k u hu hpu
      refine List.mem_map_of_mem _ (List.mem_filter.mpr ⟨?_, hpu⟩)
      exact List.getElem?_mem hu
    cases i with
    | zero =>
      cases j with
      | zero => rfl
      | succ m =>
        exfalso
        simp only [List.getElem?_cons_zero] at hti
        cases hti
        simp only [List.getElem?_cons_succ] at htj
        have hlist : ((t :: ts).filter p).map f
            = f t :: (ts.filter p).map f := by
          simp [List.filter_cons, hpi]
        rw [hlist] at hnd
        exact (List.nodup_cons.mp hnd).1 (hf ▸ hmemf m tj htj hpj)
    | succ m =>
      cases j with
      | zero =>
        exfalso
        simp only [List.getElem?_cons_zero] at htj
        cases htj
        simp only [List.getElem?_cons_succ] at hti
        have hlist : ((t :: ts).filter p).map f
            = f t :: (ts.filter p).map f := by
          simp [List.filter_cons, hpj]
        rw [hlist] at hnd
        exact (List.nodup_cons.mp hnd).1 (hf.symm ▸ hmemf m ti hti hpi)
      | succ k =>
        simp only [List.getElem?_cons_succ] at hti htj
        have hnd2 : ((ts.filter p).map f).Nodup := by
          by_cases hp : p t
          · have : ((t :: ts).filter p).map f
                = f t :: (ts.filter p).map f := by
              simp [List.filter_cons, hp]
            rw [this] at hnd
            exact (List.nodup_cons.mp hnd).2
          · have : ((t :: ts).filter p).map f = (ts.filter p).map f := by
              simp [List.filter_cons, hp]
            rwa [this] at hnd
        have := ih hnd2 m k ti tj hti htj hpi hpj hf
        omega

/-- The two tables of one category are mutually inverse on their defined
domains. -/
def MutualInverse (tiles : List tile_info) (idTbl : Nat → Int)
    (tileTbl : Int → Nat) (f : tile_info → Int) : Prop :=
  (∀ (i : Nat) (t : tile_info), tiles[i]? = some t → f t ≠ -1 →
    idTbl i = f t ∧ tileTbl (f t) = i) ∧
  (∀ id : Int, id ≠ -1 →
    (∃ (i : Nat) (t : tile_info), tiles[i]? = some t ∧ f t = id) →
    idTbl (tileTbl id) = id)

theorem mutualInverse_intro {tiles : List tile_info} {idTbl : Nat → Int}
    {tileTbl : Int → Nat} {f : tile_info → Int}
    (h : ∀ (i : Nat) (t : tile_info), tiles[i]? = some t → f t ≠ -1 →
      idTbl i = f t ∧ tileTbl (f t) = i) :
    MutualInverse tiles idTbl tileTbl f := by
  refine ⟨h, ?_⟩
  rintro id hne ⟨i, t, hit, hft⟩
  obtain ⟨h1, h2⟩ := h i t hit (by rw [hft]; exact hne)
  rw [← hft, h2]
  exact h1

/-- The generic round trip for one category's pair of table-building
loops. -/
theorem tables_roundtrip (tiles : List tile_info) (p : tile_info → Bool)
    (f : tile_info → Int)
    (hp : ∀ t ∈ tiles, (p t = true ↔ f t ≠ -1))
    (hinj : ∀ (i j : Nat) (ti tj : tile_info), tiles[i]? = some ti →
      tiles[j]? = some tj → p ti → p tj → f ti = f tj → i = j) :
    MutualInverse tiles (upd_fold (idWrites f 0 tiles) (fun _ => 0))
      (upd_fold (xrefWrites p f 0 tiles) (fun _ => 0)) f := by
  refine mutualInverse_intro ?_
  intro i t hit hne
  have hpt : p t = true := (hp t (List.getElem?_mem hit)).mpr hne
  constructor
  · apply upd_fold_mem_unique
    · exact (idWrites_mem_iff f tiles 0 i (f t)).mpr ⟨i, t, hit, hne, by omega, rfl⟩
    · intro v2 h2
      obtain ⟨i2, t2, hit2, _, hk, hv⟩ := (idWrites_mem_iff f tiles 0 i v2).mp h2
      have : i2 = i := by omega
      subst this
      rw [hit] at hit2
      cases hit2
      exact hv
  · apply upd_fold_mem_unique
    · exact (xrefWrites_mem_iff p f tiles 0 (f t) i).mpr
        ⟨i, t, hit, hpt, rfl, by omega⟩
    · intro v2 h2
      obtain ⟨i2, t2, hit2, hpt2, hk, hv⟩ :=
        (xrefWrites_mem_iff p f tiles 0 (f t) v2).mp h2
      have : i2 = i := hinj i2 i t2 t hit2 hit hpt2 hpt hk.symm
      omega

/-- For a category whose table guard is `f t != -1`, the filtered id list
is `Nodup` because the invariant identifies it with `natRange cnt`. -/
theorem catinv_guard_nodup {r : String} {f : tile_info → Int} {cnt : Nat}
    {tiles : List tile_info} (h : CatInv r f cnt tiles) :
    ((tiles.filter (fun t => f t != -1)).map f).Nodup := by
  have heq : tiles.filter (fun t => f t != -1)
      = tiles.filter (fun t => t.type == r) := by
    apply List.filter_congr
    intro t ht
    rw [Bool.eq_iff_iff]
    simp [h.1 t ht]
  rw [heq, h.2]
  exact natRange_nodup cnt

/-- C7.  For every category (CPU, private cache, LLC split, memory, SLM,
SLM-with-DDR, accelerator), the tile-index → category-ID table and the
category-ID → tile-index table built by `print_mapping` are mutual
inverses on their defined domains: writing the pair for every tile owning
a component of the category, mapping a tile's id back yields the tile's
index, and mapping any resolved id through both tables returns it. -/
theorem claim_C7 (s : soc_in) (hwf : WFacc s) (cfg : soc_config)
    (hok : mkSocConfig s = Except.ok cfg)
    (hcap : cohOf s = true →
      get_cpu_num s ≤ NCPU_MAX ∧ get_mem_num s ≤ NMEM_MAX) :
    MutualInverse cfg.tiles (tile_cpu_id cfg) (cpu_tile_id cfg)
      (fun t => t.cpu_id) ∧
    MutualInverse cfg.tiles (tile_cache_id cfg) (cache_tile_id cfg)
      (fun t => t.l2.id) ∧
    MutualInverse cfg.tiles (tile_llc_id cfg) (llc_tile_id cfg)
      (fun t => t.llc.id) ∧
    MutualInverse cfg.tiles (tile_mem_id cfg) (mem_tile_id cfg)
      (fun t => t.mem_id) ∧
    MutualInverse cfg.tiles (tile_slm_id cfg) (slm_tile_id cfg)
      (fun t => t.slm_id) ∧
    MutualInverse cfg.tiles (tile_slmddr_id cfg) (slmddr_tile_id cfg)
      (fun t => t.slmddr_id) ∧
    MutualInverse cfg.tiles (tile_acc_id cfg) (acc_tile_id cfg)
      (fun t => t.acc.id) := by
  obtain ⟨fin, hcfg, hInv, hlen⟩ := mkSocConfig_ok_inv hwf hcap hok
  subst hcfg
  have htls : (assembleConfig s fin).tiles = fin.tiles := rfl
  rw [htls]
  refine ⟨?_, ?_, ?_, ?_, ?_, ?_, ?_⟩
  · apply tables_roundtrip
    · intro t ht
      constructor
      · intro hpt
        exact (hInv.ccpu.1 t ht).mpr (by simpa using hpt)
      · intro hne
        simpa using (hInv.ccpu.1 t ht).mp hne
    · exact nodup_filtmap_inj fin.tiles
        (by rw [hInv.ccpu.2]; exact natRange_nodup _)
  · apply tables_roundtrip
    · intro t ht
      simp
    · intro i j ti tj hti htj hpi hpj hf
      have hpi2 : ti.l2.id ≠ -1 := by simpa using hpi
      have hpj2 : tj.l2.id ≠ -1 := by simpa using hpj
      have hti2 : ti ∈ fin.tiles := List.getElem?_mem hti
      have htj2 : tj ∈ fin.tiles := List.getElem?_mem htj
      obtain ⟨hcoh, hci⟩ := (hInv.hl2 ti hti2).mp hpi2
      obtain ⟨-, hcj⟩ := (hInv.hl2 tj htj2).mp hpj2
      have hfc : fin.cpu_id = get_cpu_num s := final_cpu_count hwf.1 hInv hlen
      rcases hci with hcpu_i | ⟨hacc_i, hl2_i⟩
      · rcases hcj with hcpu_j | ⟨hacc_j, hl2_j⟩
        · have hi2 := (hInv.hcpul2 ti hti2 hcpu_i hcoh).1
          have hj2 := (hInv.hcpul2 tj htj2 hcpu_j hcoh).1
          have hnd : ((fin.tiles.filter (fun t => t.type == "cpu")).map
              (fun t => t.cpu_id)).Nodup := by
            rw [hInv.ccpu.2]
            exact natRange_nodup _
          have hfcpu : ti.cpu_id = tj.cpu_id := by
            rw [← hi2, ← hj2]
            exact hf
          exact nodup_filtmap_inj fin.tiles hnd i j ti tj hti htj
            (by simp [hcpu_i]) (by simp [hcpu_j]) hfcpu
        · exfalso
          have hi2 := (hInv.hcpul2 ti hti2 hcpu_i hcoh).1
          obtain ⟨hlo_i, hhi_i⟩ := catinv_id_bound hInv.ccpu hti2 hcpu_i
          have hmem_j : tj.l2.id ∈ natRangeFrom (get_cpu_num s)
              (fin.acc_l2_id - get_cpu_num s) := by
            rw [← hInv.sl2acc hcoh]
            refine List.mem_map_of_mem _ (List.mem_filter.mpr ⟨htj2, ?_⟩)
            simp [hacc_j, hl2_j]
          obtain ⟨hlo_j, -⟩ := mem_natRangeFrom hmem_j
          have hf2 : ti.cpu_id = tj.l2.id := by
            rw [← hi2]
            exact hf
          rw [hfc] at hhi_i
          omega
      · rcases hcj with hcpu_j | ⟨hacc_j, hl2_j⟩
        · exfalso
          have hj2 := (hInv.hcpul2 tj htj2 hcpu_j hcoh).1
          obtain ⟨hlo_j, hhi_j⟩ := catinv_id_bound hInv.ccpu htj2 hcpu_j
          have hmem_i : ti.l2.id ∈ natRangeFrom (get_cpu_num s)
              (fin.acc_l2_id - get_cpu_num s) := by
            rw [← hInv.sl2acc hcoh]
            refine List.mem_map_of_mem _ (List.mem_filter.mpr ⟨hti2, ?_⟩)
            simp [hacc_i, hl2_i]
          obtain ⟨hlo_i, -⟩ := mem_natRangeFrom hmem_i
          have hf2 : ti.l2.id = tj.cpu_id := by
            rw [← hj2]
            exact hf
          rw [hfc] at hhi_j
          omega
        · have hnd : ((fin.tiles.filter
              (fun t => t.type == "acc" && t.has_l2 == 1)).map
              (fun t => t.l2.id)).Nodup := by
            rw [hInv.sl2acc hcoh]
            exact natRangeFrom_nodup _ _
          exact nodup_filtmap_inj fin.tiles hnd i j ti tj hti htj
            (by simp [hacc_i, hl2_i]) (by simp [hacc_j, hl2_j]) hf
  · by_cases hcoh : cohOf s = true
    · apply tables_roundtrip
      · intro t ht
        simp
      · exact nodup_filtmap_inj fin.tiles
          (catinv_guard_nodup (hInv.cllc hcoh))
    · apply tables_roundtrip
      · intro t ht
        simp
      · intro i j ti tj hti htj hpi hpj hf
        have h0 := hInv.hllcn (by simpa using hcoh) ti (List.getElem?_mem hti)
        have h1 : ti.llc.id = -1 := by rw [h0]
        simp [h1] at hpi
  · apply tables_roundtrip
    · intro t ht
      simp
    · exact nodup_filtmap_inj fin.tiles (catinv_guard_nodup hInv.cmem)
  · apply tables_roundtrip
    · intro t ht
      simp
    · exact nodup_filtmap_inj fin.tiles (catinv_guard_nodup hInv.cslm)
  · apply tables_roundtrip
    · intro t ht
      simp
    · exact nodup_filtmap_inj fin.tiles (catinv_guard_nodup hInv.cslmddr)
  · apply tables_roundtrip
    · intro t ht
      simp
    · exact nodup_filtmap_inj fin.tiles (catinv_guard_nodup hInv.cacc)

/-- C7 witness: Scenario B instantiation of the mutual-inverse property
for all seven table pairs. -/
theorem claim_C7_witness :
    MutualInverse cfgScenarioB.tiles (tile_cpu_id cfgScenarioB)
      (cpu_tile_id cfgScenarioB) (fun t => t.cpu_id) ∧
    MutualInverse cfgScenarioB.tiles (tile_cache_id cfgScenarioB)
      (cache_tile_id cfgScenarioB) (fun t => t.l2.id) ∧
    MutualInverse cfgScenarioB.tiles (tile_llc_id cfgScenarioB)
      (llc_tile_id cfgScenarioB) (fun t => t.llc.id) ∧
    MutualInverse cfgScenarioB.tiles (tile_mem_id cfgScenarioB)
      (mem_tile_id cfgScenarioB) (fun t => t.mem_id) ∧
    MutualInverse cfgScenarioB.tiles (tile_slm_id cfgScenarioB)
      (slm_tile_id cfgScenarioB) (fun t => t.slm_id) ∧
    MutualInverse cfgScenarioB.tiles (tile_slmddr_id cfgScenarioB)
      (slmddr_tile_id cfgScenarioB) (fun t => t.slmddr_id) ∧
    MutualInverse cfgScenarioB.tiles (tile_acc_id cfgScenarioB)
      (acc_tile_id cfgScenarioB) (fun t => t.acc.id) :=
  claim_C7 scenarioB ⟨by decide, by decide, by decide, by decide⟩
    cfgScenarioB rfl (by decide)

/-- C3 witness: the amended statement instantiated on `sAccL2`. -/
theorem claim_C3_witness :
    (∀ t ∈ cfgAccL2.tiles, t.type = "cpu" →
      8 ≤ t.l2.idx ∧ t.l2.idx < 24 ∧ t.l2.idx = t.cpu_id + 8 ∧
        t.l2.id = t.cpu_id) ∧
    (∀ t ∈ cfgAccL2.tiles, t.type = "acc" → t.has_l2 = 1 →
      t.l2.idx = -1 ∧ (cfgAccL2.ncpu : Int) ≤ t.l2.id ∧
        t.l2.id < (cfgAccL2.nl2 : Int)) :=
  ⟨(claim_C3 sAccL2 ⟨by decide, by decide, by decide, by decide⟩
      cfgAccL2 rfl (by decide) (by decide)).1,
   (claim_C3 sAccL2 ⟨by decide, by decide, by decide, by decide⟩
      cfgAccL2 rfl (by decide) (by decide)).2.2.1⟩

/-! ## Claim C8: the initialization sequence -/

theorem range_split {k n : Nat} (h : k ≤ n) :
    List.range k ++ List.range' k (n - k) = List.range n := by
  rw [List.range_eq_range' k, List.range_eq_range' n]
  have happ := List.range'_append 0 k (n - k) 1
  simp only [Nat.mul_one, Nat.zero_add, Nat.one_mul] at happ
  rw [happ]
  congr 1
  omega

/-- The row-major double loop over a full grid enumerates `range (rows *
cols)`. -/
theorem flat_grid (cols : Nat) :
    ∀ rows, (List.range rows).flatMap
        (fun i => (List.range cols).map (fun j => i * cols + j))
      = List.range (rows * cols) := by
  intro rows
  induction rows with
  | zero => simp
  | succ r ih =>
    rw [List.range_succ, List.flatMap_append, ih]
    have h1 : [r].flatMap
        (fun i => (List.range cols).map (fun j => i * cols + j))
        = (List.range cols).map (fun j => r * cols + j) := by
      simp
    rw [h1, ← List.range'_eq_map_range]
    have h3 := @range_split (r * cols) (r * cols + cols) (by omega)
    simp only [Nat.add_sub_cancel_left] at h3
    rw [h3]
    congr 1
    ring

/-- Mapping the positions selected from `range l.length` back through the
list recovers the filtered list itself. -/
theorem filtmap_range {α : Type} (p : α → Bool) (d : α) :
    ∀ (l : List α),
      ((List.range l.length).filter (fun i => p (l.getD i d))).map
        (fun i => l.getD i d) = l.filter p := by
  intro l
  induction l with
  | nil => simp
  | cons a l ih =>
    have hfil : (List.range (a :: l).length).filter
        (fun i => p ((a :: l).getD i d))
        = (if p a then [0] else []) ++ List.map Nat.succ
            ((List.range l.length).filter (fun i => p (l.getD i d))) := by
      rw [List.length_cons, List.range_succ_eq_map, List.filter_cons,
        List.filter_map]
      have hcong : (List.range l.length).filter
          ((fun i => p ((a :: l).getD i d)) ∘ Nat.succ)
          = (List.range l.length).filter (fun i => p (l.getD i d)) := by
        apply List.filter_congr
        intro i _
        simp [Function.comp]
      rw [hcong]
      by_cases hpa : p a
      · rw [if_pos (by simpa using hpa), if_pos hpa]
        rfl
      · rw [if_neg (by simpa using hpa), if_neg hpa]
        rfl
    rw [hfil, List.map_append, List.map_map]
    have hmap2 : List.map ((fun i => (a :: l).getD i d) ∘ Nat.succ)
        ((List.range l.length).filter (fun i => p (l.getD i d)))
        = List.map (fun i => l.getD i d)
          ((List.range l.length).filter (fun i => p (l.getD i d))) := by
      apply List.map_congr_left
      intro i _
      simp [Function.comp]
    rw [hmap2, ih, List.filter_cons]
    by_cases hpa : p a
    · rw [if_pos hpa, if_pos hpa]
      rfl
    · rw [if_neg hpa, if_neg hpa]
      rfl

/-- The `io_tile_id` fold stays below the tile count whenever any tile
exists. -/
theorem misc_id_of_lt (cfg : soc_config) (h : 0 < cfg.ntiles) :
    misc_id_of cfg < cfg.ntiles := by
  unfold misc_id_of
  have hgen : ∀ (l : List Nat) (acc : Nat), acc < cfg.ntiles →
      (∀ i ∈ l, i < cfg.ntiles) →
      l.foldl (fun acc i =>
        if (cfg.tiles.getD i {}).type == "misc" then i else acc) acc
        < cfg.ntiles := by
    intro l
    induction l with
    | nil => intro acc ha _; exact ha
    | cons x xs ih =>
      intro acc ha hl
      simp only [List.foldl_cons]
      apply ih
      · by_cases hx : ((cfg.tiles.getD x {}).type == "misc") = true
        · rw [if_pos hx]
          exact hl x (by simp)
        · rw [if_neg hx]
          exact ha
      · intro i hi
        exact hl i (by simp [hi])
  exact hgen _ 0 h (fun i hi => List.mem_range.mp hi)

/-- C8 counterexample.  Scenario A (4×4 grid, I/O tile at row 2, column
2): the code's traversal visits rows `2,1,0,3` (descend to row 0, then
ascend above the I/O row) and likewise columns, emitting
`10,9,8,11,...`; the claimed concentric alternating-outward order would
visit rows `2,1,3,0` and emit `10,9,11,8,...`.  The two sequences
disagree from the third element on. -/
theorem claim_C8_counterexample :
    mkSocConfig scenarioA = Except.ok cfgScenarioA ∧
    misc_id_of cfgScenarioA = 10 ∧
    (cfgScenarioA.tiles.getD 10 {}).type = "misc" ∧
    (cfgScenarioA.tiles.getD 10 {}).row = 2 ∧
    (cfgScenarioA.tiles.getD 10 {}).col = 2 ∧
    esp_init_sequence scenarioA cfgScenarioA
      = [10, 9, 8, 11, 6, 5, 4, 7, 2, 1, 0, 3, 14, 13, 12, 15, 0] ∧
    specInitSequence scenarioA cfgScenarioA
      = [10, 9, 11, 8, 6, 5, 7, 4, 14, 13, 15, 12, 2, 1, 3, 0, 0] ∧
    esp_init_sequence scenarioA cfgScenarioA
      ≠ specInitSequence scenarioA cfgScenarioA :=
  ⟨rfl, by decide, by decide, by decide, by decide, by decide, by decide,
    by decide⟩

/-- C8 (amended).  The initialization sequence decomposes as `A ++ B`
where `A` starts at the I/O tile (`io_tile_id`), visits every tile
exactly once (it is a permutation of `range ntiles`, traversing rows
from the I/O row down to 0 and then up — not alternating outward), and
`B` lists all CPU tiles in descending tile-index order, so the tile
hosting CPU identifier 0 (the first CPU tile in scan order) comes
last. -/
theorem claim_C8 (s : soc_in) (hwf : WFacc s) (cfg : soc_config)
    (hok : mkSocConfig s = Except.ok cfg)
    (hcap : cohOf s = true →
      get_cpu_num s ≤ NCPU_MAX ∧ get_mem_num s ≤ NMEM_MAX)
    (hnt : 0 < ntilesOf s) :
    ∃ A B, esp_init_sequence s cfg = A ++ B ∧
      A.head? = some (misc_id_of cfg) ∧
      A.Perm (List.range cfg.ntiles) ∧
      B = (List.range cfg.ntiles).reverse.filter
        (fun i => (cfg.tiles.getD i {}).type == "cpu") ∧
      B.Pairwise (fun a b => b < a) ∧
      (∀ i, i ∈ B ↔ i < cfg.ntiles ∧
        (cfg.tiles.getD i {}).type = "cpu") ∧
      (∀ i0, B.getLast? = some i0 → (cfg.tiles.getD i0 {}).cpu_id = 0) := by
  obtain ⟨fin, hcfg, hInv, hlen⟩ := mkSocConfig_ok_inv hwf hcap hok
  subst hcfg
  have htls : (assembleConfig s fin).tiles = fin.tiles := rfl
  have hcols : 0 < s.cols := by
    rcases Nat.eq_zero_or_pos s.cols with h0 | h
    · unfold ntilesOf at hnt
      rw [h0, Nat.mul_zero] at hnt
      exact absurd hnt (by simp)
    · exact h
  have hmlt : misc_id_of (assembleConfig s fin) < ntilesOf s :=
    misc_id_of_lt (assembleConfig s fin) hnt
  have hmlen : misc_id_of (assembleConfig s fin) < fin.tiles.length := by
    rw [hlen]
    exact hmlt
  cases hgm : fin.tiles[misc_id_of (assembleConfig s fin)]? with
  | none =>
    rw [List.getElem?_eq_none_iff] at hgm
    omega
  | some tm =>
    obtain ⟨hrow, hcol, -⟩ := hInv.hpos _ tm hgm
    have hgd : (assembleConfig s fin).tiles.getD
        (misc_id_of (assembleConfig s fin)) {} = tm := by
      show fin.tiles.getD _ {} = tm
      rw [List.getD_eq_getElem?_getD, hgm]
      rfl
    have hr1 : tm.row < s.rows := by
      rw [hrow]
      rw [Nat.div_lt_iff_lt_mul hcols]
      have : ntilesOf s = s.rows * s.cols := rfl
      omega
    have hc1 : tm.col < s.cols := by
      rw [hcol]
      exact Nat.mod_lt _ hcols
    refine ⟨(pyRangeRev ((assembleConfig s fin).tiles.getD
          (misc_id_of (assembleConfig s fin)) {}).row ++
        pyRangeAsc (((assembleConfig s fin).tiles.getD
          (misc_id_of (assembleConfig s fin)) {}).row + 1) s.rows).flatMap
        (fun i => (pyRangeRev ((assembleConfig s fin).tiles.getD
            (misc_id_of (assembleConfig s fin)) {}).col ++
          pyRangeAsc (((assembleConfig s fin).tiles.getD
            (misc_id_of (assembleConfig s fin)) {}).col + 1) s.cols).map
          (fun j => i * s.cols + j)),
      (List.range (assembleConfig s fin).ntiles).reverse.filter
        (fun i => ((assembleConfig s fin).tiles.getD i {}).type == "cpu"),
      rfl, ?_, ?_, rfl, ?_, ?_, ?_⟩
    · rw [hgd]
      have hrow_cons : pyRangeRev tm.row
          = tm.row :: (List.range tm.row).reverse := by
        unfold pyRangeRev
        rw [List.range_succ, List.reverse_append]
        rfl
      have hcol_cons : pyRangeRev tm.col
          = tm.col :: (List.range tm.col).reverse := by
        unfold pyRangeRev
        rw [List.range_succ, List.reverse_append]
        rfl
      rw [hrow_cons, hcol_cons]
      simp only [List.cons_append, List.flatMap_cons, List.map_cons,
        List.head?_cons]
      congr 1
      rw [hrow, hcol, Nat.mul_comm]
      exact Nat.div_add_mod _ s.cols
    · rw [hgd]
      have hrowPerm : (pyRangeRev tm.row ++
          pyRangeAsc (tm.row + 1) s.rows).Perm (List.range s.rows) := by
        have h1 : (pyRangeRev tm.row).Perm (List.range (tm.row + 1)) :=
          List.reverse_perm _
        have h2 := List.Perm.append_right
          (pyRangeAsc (tm.row + 1) s.rows) h1
        have h3 : List.range (tm.row + 1) ++
            pyRangeAsc (tm.row + 1) s.rows = List.range s.rows := by
          show List.range (tm.row + 1) ++
            List.range' (tm.row + 1) (s.rows - (tm.row + 1)) = _
          exact range_split (by omega)
        rw [h3] at h2
        exact h2
      have hcolPerm : (pyRangeRev tm.col ++
          pyRangeAsc (tm.col + 1) s.cols).Perm (List.range s.cols) := by
        have h1 : (pyRangeRev tm.col).Perm (List.range (tm.col + 1)) :=
          List.reverse_perm _
        have h2 := List.Perm.append_right
          (pyRangeAsc (tm.col + 1) s.cols) h1
        have h3 : List.range (tm.col + 1) ++
            pyRangeAsc (tm.col + 1) s.cols = List.range s.cols := by
          show List.range (tm.col + 1) ++
            List.range' (tm.col + 1) (s.cols - (tm.col + 1)) = _
          exact range_split (by omega)
        rw [h3] at h2
        exact h2
      have h1 := (List.Perm.flatMap_right
        (fun i => (pyRangeRev tm.col ++
          pyRangeAsc (tm.col + 1) s.cols).map
          (fun j => i * s.cols + j)) hrowPerm).trans
        (List.Perm.flatMap_left (List.range s.rows)
          (fun a _ => List.Perm.map (fun j => a * s.cols + j) hcolPerm))
      rw [flat_grid s.cols s.rows] at h1
      exact h1
    · apply List.Pairwise.filter
      rw [List.pairwise_reverse]
      exact List.pairwise_lt_range _
    · intro i
      simp [List.mem_filter, List.mem_reverse, List.mem_range]
    · intro i0 hB0
      rw [List.filter_reverse, List.getLast?_reverse, htls] at hB0
      have hfm := filtmap_range (fun t => t.type == "cpu")
        ({} : tile_info) fin.tiles
      rw [hlen] at hfm
      have h1 : (fin.tiles.filter (fun t => t.type == "cpu")).head?
          = some (fin.tiles.getD i0 {}) := by
        rw [← hfm, List.head?_map]
        show Option.map _ (((List.range
          (assembleConfig s fin).ntiles).filter _).head?) = _
        rw [hB0]
        rfl
      have h2 := congrArg List.head? hInv.ccpu.2
      rw [List.head?_map, h1] at h2
      cases hc0 : fin.cpu_id with
      | zero =>
        rw [hc0] at h2
        simp [natRange] at h2
      | succ k =>
        rw [hc0] at h2
        have h3 : (natRange (k + 1)).head? = some 0 := by
          unfold natRange
          rw [List.head?_map, List.range_succ_eq_map]
          rfl
        rw [h3] at h2
        rw [htls]
        exact Option.some.inj h2

/-- C8 witness: the amended decomposition instantiated on Scenario A. -/
theorem claim_C8_witness :
    ∃ A B, esp_init_sequence scenarioA cfgScenarioA = A ++ B ∧
      A.head? = some (misc_id_of cfgScenarioA) ∧
      A.Perm (List.range cfgScenarioA.ntiles) ∧
      B = (List.range cfgScenarioA.ntiles).reverse.filter
        (fun i => (cfgScenarioA.tiles.getD i {}).type == "cpu") ∧
      B.Pairwise (fun a b => b < a) ∧
      (∀ i, i ∈ B ↔ i < cfgScenarioA.ntiles ∧
        (cfgScenarioA.tiles.getD i {}).type = "cpu") ∧
      (∀ i0, B.getLast? = some i0 →
        (cfgScenarioA.tiles.getD i0 {}).cpu_id = 0) :=
  claim_C8 scenarioA ⟨by decide, by decide, by decide, by decide⟩
    cfgScenarioA rfl (by decide) (by decide)

end Socmap
